import Mathlib

/-!
# network-quality/goserver: a shallow embedding of `server.go`

The request handlers of `server.go` (small, large, slurp, periodic, discovery), the two
body writers, the counting discard sink, the handler tables and `ignorableError`, and the
serving-unit goroutines of `cmd/networkqualityd/main.go`, written as executable Lean
functions over an explicit model of the response writer, followed by the theorems that
settle the specification claims.

Conventions.
* `int64` values are `Int`; every `int64` subtraction/addition of the source goes through
  `wrapInt64`. `uint64` values are `Nat` below `2^64`; `uint64 x` is the conversion of an
  `int64`/`int`, and `atomicAddUint64` adds modulo `2^64`.
* A `*uint64` is an `Option Nat`: `none` is the nil pointer, `some v` a pointer to a cell
  that holds `v`. The two counters of a `handlers` value are two distinct cells.
* Loops take a fuel argument; `Run.outOfFuel` is only returned when the fuel is used up.
* A Go panic is `Run.panic`.
-/

namespace Goserver

/-! ## Constants (`server.go` 21-26) -/

def smallContentLength : Int := 1
def largeContentLength : Int := 8 * 1024 * 1024 * 1024
def chunkSize : Int := 64 * 1024
def maxPeriodicSize : Int := 4 * 1024

/-- Length of `chunkBuffed` (`make([]byte, chunkSize)`). -/
def chunkBuffedLen : Nat := chunkSize.toNat
/-- Length of `periodicBuffed` (`make([]byte, maxPeriodicSize)`). -/
def periodicBuffedLen : Nat := maxPeriodicSize.toNat

/-! ## Machine integers -/

/-- Two-complement wrap of an integer into the `int64` range. -/
def wrapInt64 (x : Int) : Int := (x + 2 ^ 63) % 2 ^ 64 - 2 ^ 63

/-- Conversion `uint64(x)` of a signed integer. -/
def uint64 (x : Int) : Nat := (x % 2 ^ 64).toNat

/-- The call `atomic.AddUint64(addr, delta)`: `none` when `addr` is the nil pointer (the call
panics), otherwise the new content of the cell. -/
def atomicAddUint64 : Option Nat → Nat → Option (Option Nat)
  | none, _ => none
  | some v, delta => some (some ((v + delta) % 2 ^ 64))

/-- The slice expression `buf[:hi]` on a buffer of length (and capacity) `len`: the length of
the slice, or `none` when the bound is out of range (the expression panics). -/
def sliceTo (len : Nat) (hi : Int) : Option Nat :=
  if 0 ≤ hi ∧ hi ≤ (len : Int) then some hi.toNat else none

/-! ## Errors -/

/-- The values of `syscall.Errno` that the server distinguishes. -/
inductive Errno where
  | EPIPE
  | ECONNRESET
  | other (code : Nat)
  deriving DecidableEq, Repr

/-- Go `error` values: `io.EOF`, an errno, an `errors.New` text, or an error that wraps
another one (`fmt.Errorf` with `%w`, `*net.OpError`, `*os.SyscallError`). -/
inductive GoError where
  | eof
  | errno (e : Errno)
  | text (msg : String)
  | wrap (msg : String) (inner : GoError)
  deriving DecidableEq, Repr

/-- The method `Error()`. -/
def GoError.Error : GoError → String
  | .eof => "EOF"
  | .errno .EPIPE => "broken pipe"
  | .errno .ECONNRESET => "connection reset by peer"
  | .errno (.other code) => "errno " ++ toString code
  | .text msg => msg
  | .wrap msg _ => msg

/-- The function `errors.Is(err, target)` for a non-nil `err` and a comparable `target`:
walk the `Unwrap` chain comparing each error with the target. -/
def errorsIs : GoError → GoError → Bool
  | .wrap msg inner, target =>
      if GoError.wrap msg inner = target then true else errorsIs inner target
  | err, target => decide (err = target)

/-- Source: `ignorableError` (`server.go` 424-440). -/
def ignorableError (err : Option GoError) : Bool :=
  match err with
  | none => true
  | some e =>
    if errorsIs e (.errno .EPIPE) then true
    else if errorsIs e (.errno .ECONNRESET) then true
    else if e.Error = "client disconnected" then true
    else false

/-! ## Response writer -/

/-- A header map; `headerSet` replaces the value of a key. -/
abbrev Header := List (String × String)

def headerSet (h : Header) (key value : String) : Header :=
  (key, value) :: h.filter (fun kv => kv.1 != key)

def headerGet (h : Header) (key : String) : Option String :=
  h.lookup key

/-- What the handler goroutine does that can be observed, in program order. -/
inductive Event where
  | writeHeader (code : Nat)
  | write (len : Nat) (accepted : Nat) (err : Option GoError)
  | flush
  | notFlushable
  | sleep
  | log (msg : String)
  deriving DecidableEq, Repr

/-- An `http.ResponseWriter` together with the transport behind it.
`peer calls delivered len` is what the transport answers to the next `Write` of `len` bytes
after `calls` earlier `Write` calls that delivered `delivered` bytes: the number of bytes it
accepts and the error it returns. `sent` is the status code and header snapshot of the first
`WriteHeader` (or implicit one); `trace` lists the events oldest first. -/
structure ResponseWriter where
  header : Header
  sent : Option (Nat × Header)
  trace : List Event
  calls : Nat
  delivered : Nat
  flushable : Bool
  peer : Nat → Nat → Nat → Nat × Option GoError

namespace ResponseWriter

/-- The writer a handler is called with: nothing set, nothing sent. -/
def fresh (flushable : Bool) (peer : Nat → Nat → Nat → Nat × Option GoError) :
    ResponseWriter :=
  { header := [], sent := none, trace := [], calls := 0, delivered := 0,
    flushable := flushable, peer := peer }

/-- The call `w.Header().Set(key, value)`. -/
def setHeader (w : ResponseWriter) (key value : String) : ResponseWriter :=
  { w with header := headerSet w.header key value }

/-- The call `w.WriteHeader(code)`: only the first call sends the status line. -/
def WriteHeader (w : ResponseWriter) (code : Nat) : ResponseWriter :=
  { w with
    sent := match w.sent with
      | none => some (code, w.header)
      | some s => some s
    trace := w.trace ++ [Event.writeHeader code] }

/-- The call `w.Write(p)` with `len(p) = len`; a first write sends status 200. -/
def Write (w : ResponseWriter) (len : Nat) : ResponseWriter × Option GoError :=
  let r := w.peer w.calls w.delivered len
  ({ w with
     sent := match w.sent with
       | none => some (200, w.header)
       | some s => some s
     trace := w.trace ++ [Event.write len r.1 r.2]
     calls := w.calls + 1
     delivered := w.delivered + r.1 }, r.2)

/-- The type assertion `w.(http.Flusher)` followed by `Flush()` or by the log line. -/
def flushOrLog (w : ResponseWriter) : ResponseWriter :=
  if w.flushable then
    { w with
      sent := match w.sent with
        | none => some (200, w.header)
        | some s => some s
      trace := w.trace ++ [Event.flush] }
  else { w with trace := w.trace ++ [Event.notFlushable] }

/-- The call `time.Sleep(interval)` of the handler goroutine. -/
def sleep (w : ResponseWriter) : ResponseWriter :=
  { w with trace := w.trace ++ [Event.sleep] }

/-- The call `log.Printf` of the handler goroutine. -/
def logf (w : ResponseWriter) (msg : String) : ResponseWriter :=
  { w with trace := w.trace ++ [Event.log msg] }

/-- The response as the client sees it once the handler has returned: the status and header
of the first `WriteHeader`, or status 200 with the final header when none was sent. -/
def response (w : ResponseWriter) : Nat × Header :=
  match w.sent with
  | some s => s
  | none => (200, w.header)

/-- A transport whose writes never fail. -/
def NeverFails (w : ResponseWriter) : Prop :=
  ∀ calls delivered len, w.peer calls delivered len = (len, none)

end ResponseWriter

/-- The transport that accepts every write in full. -/
def reliablePeer : Nat → Nat → Nat → Nat × Option GoError :=
  fun _ _ len => (len, none)

/-- A transport whose connection breaks: the first `okCalls` writes are accepted in full
(by the socket buffers, whatever part of them the client has read by then), every later
write accepts `accepted` bytes, at most its length, and fails with `err`. How many writes
are absorbed before the failure surfaces is up to the kernel, not to the number of bytes the
client read. -/
def failingPeer (okCalls accepted : Nat) (err : GoError) :
    Nat → Nat → Nat → Nat × Option GoError :=
  fun calls _ len =>
    if calls < okCalls then (len, none)
    else (min accepted len, some err)

/-- The contract of `io.Writer` for the transport: a write accepts at most its length, and it
accepts all of it when it returns the nil error. -/
def ObeysWriterContract (peer : Nat → Nat → Nat → Nat × Option GoError) : Prop :=
  ∀ calls delivered len,
    (peer calls delivered len).1 ≤ len ∧
    ((peer calls delivered len).2 = none → (peer calls delivered len).1 = len)

/-- The lengths of the `Write` calls of a trace, oldest first. -/
def writeLens : List Event → List Nat
  | [] => []
  | .write len _ _ :: rest => len :: writeLens rest
  | _ :: rest => writeLens rest

/-! ## Results of running a handler -/

inductive Run (α : Type) where
  | done (a : α)
  | panic (msg : String)
  | outOfFuel

/-! ## Handlers (`server.go` 54-58) -/

structure handlers where
  EnableCORS : Bool
  BytesServed : Option Nat
  BytesReceived : Option Nat

/-- The `handlers` value built by `CountingBulkHandlers` from pointers to two counters that
hold `served` and `received` (`server.go` 72). -/
def countingHandlers (cors : Bool) (served received : Nat) : handlers :=
  { EnableCORS := cors, BytesServed := some served, BytesReceived := some received }

/-- Source: `setCors` (`server.go` 49-52). -/
def setCors (w : ResponseWriter) : ResponseWriter :=
  (w.setHeader "Access-Control-Allow-Origin" "*").setHeader "Access-Control-Allow-Headers" "*"

/-- Source: the loop of `chunkedBodyWriter` (`server.go` 281-300); `n` is the loop variable. -/
def chunkLoop : Nat → handlers → ResponseWriter → Int →
    Run (handlers × ResponseWriter × Option GoError)
  | 0, _, _, _ => .outOfFuel
  | fuel + 1, h, w, n =>
    if n > 0 then
      if n ≥ chunkSize then
        match atomicAddUint64 h.BytesServed (uint64 chunkSize) with
        | none => .panic "nil pointer dereference"
        | some c =>
          let r := w.Write chunkBuffedLen
          match r.2 with
          | some e => .done ({ h with BytesServed := c }, r.1, some e)
          | none => chunkLoop fuel { h with BytesServed := c } r.1 (wrapInt64 (n - chunkSize))
      else
        match atomicAddUint64 h.BytesServed (uint64 n) with
        | none => .panic "nil pointer dereference"
        | some c =>
          match sliceTo chunkBuffedLen n with
          | none => .panic "slice bounds out of range"
          | some len =>
            let r := w.Write len
            match r.2 with
            | some e => .done ({ h with BytesServed := c }, r.1, some e)
            | none => .done ({ h with BytesServed := c }, r.1, none)
    else .done (h, w, none)

/-- Source: `chunkedBodyWriter` (`server.go` 278-301). -/
def chunkedBodyWriter (fuel : Nat) (h : handlers) (w : ResponseWriter) (contentLength : Int) :
    Run (handlers × ResponseWriter × Option GoError) :=
  chunkLoop fuel h (w.WriteHeader 200) contentLength

/-- The text that the verb `%s` prints for an error value. -/
def errorText : Option GoError → String
  | some e => e.Error
  | none => "%!s(<nil>)"

/-- The `if err := ...; !ignorableError(err) { log.Printf(...) }` step that ends the small,
large and periodic handlers; `msg` is the formatted text in front of the error. -/
def logUnlessIgnorable (msg : String) :
    Run (handlers × ResponseWriter × Option GoError) → Run (handlers × ResponseWriter)
  | .done (h, w, err) =>
    if ignorableError err then .done (h, w)
    else .done (h, w.logf (msg ++ errorText err))
  | .panic msg => .panic msg
  | .outOfFuel => .outOfFuel

/-! ## The periodic writer (`server.go` 303-353) -/

/-- Round to nearest, ties to even, of a natural number to a 53 bit significand. -/
def roundNat53 (a : Nat) : Nat :=
  if a < 2 ^ 53 then a
  else
    let ulp := 2 ^ (Nat.log2 a - 52)
    let m := a / ulp
    let r := a % ulp
    if 2 * r < ulp then m * ulp
    else if 2 * r > ulp then (m + 1) * ulp
    else if m % 2 = 0 then m * ulp
    else (m + 1) * ulp

/-- The conversion `float64(x)` of an `int64`; the result is a float whose value is an
integer, and it is represented by that integer. -/
def float64OfInt64 (x : Int) : Int :=
  if x < 0 then -((roundNat53 x.natAbs : Nat) : Int) else ((roundNat53 x.natAbs : Nat) : Int)

/-- The function `math.Min` on two finite floats. -/
def mathMin (x y : Int) : Int := if x ≤ y then x else y

/-- The conversion `int64(v)` of a float with an integral value (outside the `int64` range the
amd64 result is the minimum `int64`). -/
def int64OfFloat64 (v : Int) : Int :=
  if -(2 ^ 63) ≤ v ∧ v < 2 ^ 63 then v else -(2 ^ 63)

/-- Line 309: `int64(math.Min(float64(periodicSize), float64(maxPeriodicSize)))`. -/
def clampPeriodicSize (periodicSize : Int) : Int :=
  int64OfFloat64 (mathMin (float64OfInt64 periodicSize) (float64OfInt64 maxPeriodicSize))

/-- Source: the loop run by the goroutine of `periodicBodyWriter` (`server.go` 313-346);
`periodicSize` is the clamped size and `n` the loop variable. -/
def periodicLoop : Nat → handlers → ResponseWriter → Int → Int →
    Run (handlers × ResponseWriter × Option GoError)
  | 0, _, _, _, _ => .outOfFuel
  | fuel + 1, h, w, periodicSize, n =>
    if n > 0 then
      let w := w.sleep
      if n ≥ periodicSize then
        match atomicAddUint64 h.BytesServed (uint64 periodicSize) with
        | none => .panic "nil pointer dereference"
        | some c =>
          match sliceTo periodicBuffedLen periodicSize with
          | none => .panic "slice bounds out of range"
          | some len =>
            let r := w.Write len
            match r.2 with
            | some e => .done ({ h with BytesServed := c }, r.1, some e)
            | none =>
              periodicLoop fuel { h with BytesServed := c } r.1.flushOrLog periodicSize
                (wrapInt64 (n - periodicSize))
      else
        match atomicAddUint64 h.BytesServed (uint64 n) with
        | none => .panic "nil pointer dereference"
        | some c =>
          match sliceTo periodicBuffedLen n with
          | none => .panic "slice bounds out of range"
          | some len =>
            let r := w.Write len
            match r.2 with
            | some e => .done ({ h with BytesServed := c }, r.1, some e)
            | none => .done ({ h with BytesServed := c }, r.1, none)
    else .done (h, w, none)

/-- Source: `periodicBodyWriter` (`server.go` 303-353). The goroutine is joined through the
wait group before the function returns, so its loop runs in sequence here. -/
def periodicBodyWriter (fuel : Nat) (h : handlers) (w : ResponseWriter)
    (periodicSize contentLength : Int) : Run (handlers × ResponseWriter × Option GoError) :=
  periodicLoop fuel h (w.WriteHeader 200) (clampPeriodicSize periodicSize) contentLength

/-! ## Requests -/

/-- The parsed query `r.URL.Query()`: keys with their values. -/
abbrev Values := List (String × List String)

/-- The method `Values.Has`. -/
def valuesHas (v : Values) (key : String) : Bool := (v.lookup key).isSome

/-- The method `Values.Get`: the first value of the key, or the empty string. -/
def valuesGet (v : Values) (key : String) : String :=
  match v.lookup key with
  | some (x :: _) => x
  | _ => ""

/-- What the `WriteTo` method of a body hands to the destination in one call: a byte slice
through `Write`, or a string through `io.WriteString`, which calls `WriteString` on a
destination that has that method. -/
inductive Chunk where
  | bytes (p : List UInt8)
  | text (s : String)

/-- A request body. `noBody` is `http.NoBody`, which implements `io.WriterTo` and writes
nothing. A `writerTo` body is any other body that implements `io.WriterTo` (`io.NopCloser`
over a `strings.Reader`, `bytes.Reader` or `bytes.Buffer`, as `httptest.NewRequest` and
body-buffering middleware build it), given by the calls its `WriteTo` makes on the
destination. A `reader` is a body that only has `Read` (the bodies of the `net/http`
server), given by what its successive `Read` calls return (number of bytes, error); once the
list is used up `Read` returns `(0, io.EOF)`. -/
inductive Body where
  | noBody
  | writerTo (chunks : List Chunk)
  | reader (reads : List (Nat × Option GoError))

structure Request where
  Method : String
  query : Values
  body : Body

/-- The digits of `strconv.ParseUint(s, 10, 64)`: the value, or `none` on a character that
is no decimal digit. -/
def parseDigits : List Char → Nat → Option Nat
  | [], acc => some acc
  | c :: cs, acc =>
    if c.toNat ≥ 48 ∧ c.toNat ≤ 57 then parseDigits cs (acc * 10 + (c.toNat - 48)) else none

/-- The call `strconv.ParseInt(s, 10, 64)`: the value, or `none` when `err != nil` (syntax
error or value out of the `int64` range). -/
def ParseInt (s : String) : Option Int :=
  match s.toList with
  | [] => none
  | c :: cs =>
    let neg := decide (c = '-')
    let ds := if c = '+' ∨ c = '-' then cs else c :: cs
    match ds with
    | [] => none
    | _ :: _ =>
      match parseDigits ds 0 with
      | none => none
      | some un =>
        if !neg ∧ un ≥ 2 ^ 63 then none
        else if neg ∧ un > 2 ^ 63 then none
        else some (if neg then -(un : Int) else (un : Int))

/-! ## The counting discard sink (`server.go` 382-421) -/

/-- Source: `countingDiscard.ReadFrom` (`server.go` 406-421). `counter` is `cb.byteCounter`,
`n` the named result so far; returns the counter cell, `n` and `err`. -/
def ReadFrom : Option Nat → List (Nat × Option GoError) → Int →
    Run (Option Nat × Int × Option GoError)
  | counter, [], n =>
    match atomicAddUint64 counter (uint64 0) with
    | none => .panic "nil pointer dereference"
    | some c => .done (c, wrapInt64 (n + 0), none)
  | counter, (readSize, err) :: rest, n =>
    match atomicAddUint64 counter (uint64 readSize) with
    | none => .panic "nil pointer dereference"
    | some c =>
      match err with
      | some e =>
        if e = GoError.eof then .done (c, wrapInt64 (n + readSize), none)
        else .done (c, wrapInt64 (n + readSize), some e)
      | none => ReadFrom c rest (wrapInt64 (n + readSize))

/-- The struct `countingDiscard`. -/
structure countingDiscard where
  byteCounter : Option Nat

/-- Source: `countingDiscard.Write` (`server.go` 389-392): the sink after the call, and the
two results. -/
def countingDiscard.Write (cb : countingDiscard) (p : List UInt8) :
    countingDiscard × Nat × Option GoError :=
  let x := p.length
  (cb, x, none)

/-- Source: `countingDiscard.WriteString` (`server.go` 394-397); `len(s)` is the number of
bytes of the string. -/
def countingDiscard.WriteString (cb : countingDiscard) (s : String) :
    countingDiscard × Nat × Option GoError :=
  let x := s.utf8ByteSize
  (cb, x, none)

/-- The method `WriteTo` of a body that implements `io.WriterTo`, on the counting sink: one
call of `Write` or `WriteString` per chunk; `n` is the number of bytes written so far. Both
calls return the full length and the nil error, so `WriteTo` never stops early. -/
def writeChunks (cb : countingDiscard) : List Chunk → Int → countingDiscard × Int
  | [], n => (cb, n)
  | .bytes p :: rest, n =>
    let r := cb.Write p
    writeChunks r.1 rest (wrapInt64 (n + r.2.1))
  | .text s :: rest, n =>
    let r := cb.WriteString s
    writeChunks r.1 rest (wrapInt64 (n + r.2.1))

/-- The number of bytes of a list of chunks. -/
def chunksLength : List Chunk → Nat
  | [] => 0
  | .bytes p :: rest => p.length + chunksLength rest
  | .text s :: rest => s.utf8ByteSize + chunksLength rest

/-- The call `io.Copy(countingDiscard{byteCounter: counter}, body)`: a source that
implements `io.WriterTo` writes itself into the sink through `Write` and `WriteString`
(`http.NoBody` writes nothing), any other source is handed to `ReadFrom`. -/
def ioCopy (counter : Option Nat) : Body → Run (Option Nat × Int × Option GoError)
  | .noBody => .done (counter, 0, none)
  | .writerTo chunks =>
    let r := writeChunks { byteCounter := counter } chunks 0
    .done (r.1.byteCounter, r.2, none)
  | .reader reads => ReadFrom counter reads 0

/-- Source: `setNoPublicCache` (`server.go` 358-361). -/
def setNoPublicCache (w : ResponseWriter) : ResponseWriter :=
  (w.setHeader "Proxy-Cache-Control" "max-age=604800, public").setHeader
    "Cache-Control" "no-store, must-revalidate, private, max-age=0"

/-- The call `http.Error(w, msg, code)`: plain-text headers, the status, the message line. -/
def httpError (w : ResponseWriter) (msg : String) (code : Nat) : ResponseWriter :=
  ((((w.setHeader "Content-Type" "text/plain; charset=utf-8").setHeader
    "X-Content-Type-Options" "nosniff").WriteHeader code).Write (msg.utf8ByteSize + 1)).1

/-! ## The endpoint handlers -/

/-- Source: `smallHandler` (`server.go` 207-223). -/
def smallHandler (fuel : Nat) (h : handlers) (w : ResponseWriter) (r : Request) :
    Run (handlers × ResponseWriter) :=
  if r.Method ≠ "GET" ∧ r.Method ≠ "HEAD" then .done (h, w.WriteHeader 405)
  else
    let w := w.setHeader "Content-Length" (toString smallContentLength)
    let w := w.setHeader "Content-Type" "application/octet-stream"
    let w := if h.EnableCORS then setCors w else w
    logUnlessIgnorable
      ("Error writing content of length " ++ toString smallContentLength ++ ": ")
      (chunkedBodyWriter fuel h w smallContentLength)

/-- Source: `largeHandler` (`server.go` 225-245). -/
def largeHandler (fuel : Nat) (h : handlers) (w : ResponseWriter) (r : Request) :
    Run (handlers × ResponseWriter) :=
  if r.Method ≠ "GET" ∧ r.Method ≠ "HEAD" then .done (h, w.WriteHeader 405)
  else
    let w := w.setHeader "Content-Length" (toString largeContentLength)
    let w := w.setHeader "Content-Type" "application/octet-stream"
    let w := if h.EnableCORS then setCors w else w
    if r.Method ≠ "GET" then .done (h, w)
    else
      logUnlessIgnorable
        ("Error writing content of length " ++ toString largeContentLength ++ ": ")
        (chunkedBodyWriter fuel h w largeContentLength)

/-- Source: `periodicHandler` (`server.go` 247-276). -/
def periodicHandler (fuel : Nat) (h : handlers) (w : ResponseWriter) (r : Request) :
    Run (handlers × ResponseWriter) :=
  if r.Method ≠ "GET" ∧ r.Method ≠ "HEAD" then .done (h, w.WriteHeader 405)
  else if !valuesHas r.query "size" then .done (h, w.WriteHeader 400)
  else
    match ParseInt (valuesGet r.query "size") with
    | none => .done (h, w.WriteHeader 400)
    | some periodicSize =>
      let w := w.setHeader "Content-Length" (toString largeContentLength)
      let w := w.setHeader "Content-Type" "application/octet-stream"
      let w := if h.EnableCORS then setCors w else w
      if r.Method ≠ "GET" then .done (h, w)
      else
        logUnlessIgnorable
          ("Error periodically writing content of length " ++ toString largeContentLength
            ++ ": ")
          (periodicBodyWriter fuel h w periodicSize largeContentLength)

/-- Source: `slurpHandler` (`server.go` 365-380). -/
def slurpHandler (h : handlers) (w : ResponseWriter) (r : Request) :
    Run (handlers × ResponseWriter) :=
  let w := w.setHeader "Content-Type" "application/octet-stream"
  let w := setNoPublicCache w
  let w := if h.EnableCORS then setCors w else w
  match ioCopy h.BytesReceived r.body with
  | .panic msg => .panic msg
  | .outOfFuel => .outOfFuel
  | .done (c, _, err) =>
    match err with
    | some e => .done ({ h with BytesReceived := c }, httpError w e.Error 400)
    | none => .done ({ h with BytesReceived := c }, w.WriteHeader 200)

/-! ## The discovery document (`server.go` 82-205) -/

/-- The anonymous struct `urls` of `generateConfig`. -/
structure ConfigURLs where
  SmallDownloadURL : String
  LargeDownloadURL : String
  UploadURL : String
  SmallHTTPSDownloadURL : String
  LargeHTTPSDownloadURL : String
  HTTPSUploadURL : String
  HTTPSPeriodicURL : String
  deriving DecidableEq, Repr

/-- The anonymous struct `resp` of `generateConfig`. -/
structure ConfigResp where
  Version : Int
  Urls : ConfigURLs
  deriving DecidableEq, Repr

/-- The struct `Server`; `once` and `generatedConfig` are the one-time barrier and the cached
document (`none` before the first generation). -/
structure Server where
  PublicPort : Int
  PublicHostPort : String
  ContextPath : String
  Scheme : String
  EnableCORS : Bool
  EnableH3AltSvc : Bool
  BytesServed : Nat
  BytesReceived : Nat
  generatedConfig : Option ConfigResp
  once : Bool

/-- A JSON value, as far as the discovery document needs it. -/
inductive Json where
  | num (n : Int)
  | str (s : String)
  | obj (fields : List (String × Json))

/-- The JSON object that `encoding/json` makes of the `urls` struct: one member per field, in
field order, named by the field tag. -/
def ConfigURLs.toJson (u : ConfigURLs) : Json :=
  .obj [("small_download_url", .str u.SmallDownloadURL),
        ("large_download_url", .str u.LargeDownloadURL),
        ("upload_url", .str u.UploadURL),
        ("small_https_download_url", .str u.SmallHTTPSDownloadURL),
        ("large_https_download_url", .str u.LargeHTTPSDownloadURL),
        ("https_upload_url", .str u.HTTPSUploadURL),
        ("https_periodic_url", .str u.HTTPSPeriodicURL)]

/-- The JSON object that `encoding/json` makes of the `resp` struct. -/
def ConfigResp.toJson (c : ConfigResp) : Json :=
  .obj [("version", .num c.Version), ("urls", c.Urls.toJson)]

/-- The members of a JSON object. -/
def Json.members : Json → List (String × Json)
  | .obj fields => fields
  | _ => []

/-- Source: `generateSmallDownloadURL` (`server.go` 191-193). -/
def Server.generateSmallDownloadURL (m : Server) : String :=
  m.Scheme ++ "://" ++ m.PublicHostPort ++ m.ContextPath ++ "/small"

/-- Source: `generateLargeDownloadURL` (`server.go` 195-197). -/
def Server.generateLargeDownloadURL (m : Server) : String :=
  m.Scheme ++ "://" ++ m.PublicHostPort ++ m.ContextPath ++ "/large"

/-- Source: `generateUploadURL` (`server.go` 199-201). -/
def Server.generateUploadURL (m : Server) : String :=
  m.Scheme ++ "://" ++ m.PublicHostPort ++ m.ContextPath ++ "/slurp"

/-- Source: `generatePeriodicURL` (`server.go` 203-205). -/
def Server.generatePeriodicURL (m : Server) : String :=
  m.Scheme ++ "://" ++ m.PublicHostPort ++ m.ContextPath ++ "/periodic"

/-- Source: `generateConfig` (`server.go` 133-166), up to the marshalling: the value whose
JSON encoding is stored in `generatedConfig`. -/
def Server.generateConfig (m : Server) : Server :=
  let urls : ConfigURLs :=
    { SmallDownloadURL := m.generateSmallDownloadURL
      LargeDownloadURL := m.generateLargeDownloadURL
      UploadURL := m.generateUploadURL
      SmallHTTPSDownloadURL := m.generateSmallDownloadURL
      LargeHTTPSDownloadURL := m.generateLargeDownloadURL
      HTTPSUploadURL := m.generateUploadURL
      HTTPSPeriodicURL := m.generatePeriodicURL }
  { m with generatedConfig := some { Version := 1, Urls := urls } }

/-- The step `m.once.Do(...)` around `generateConfig`. -/
def Server.onceDo (m : Server) : Server :=
  if m.once then m else { m.generateConfig with once := true }

/-- Source: `ConfigHandler` (`server.go` 168-189). `encodedLen` is the length of the
`json.MarshalIndent` encoding of a document; the nil slice has length 0. -/
def Server.ConfigHandler (encodedLen : Json → Nat) (m : Server) (w : ResponseWriter)
    (r : Request) : Server × ResponseWriter :=
  if r.Method ≠ "GET" then (m, w.WriteHeader 405)
  else
    let m := m.onceDo
    let w := w.setHeader "Content-Type" "application/json"
    let w := if m.EnableH3AltSvc then
        w.setHeader "Alt-Svc" ("h3=\":" ++ toString m.PublicPort ++ "\"")
      else w
    let w := if m.EnableCORS then setCors w else w
    let res := w.Write (match m.generatedConfig with
      | some c => encodedLen c.toJson
      | none => 0)
    match res.2 with
    | some e => (m, res.1.logf ("could not write response: " ++ e.Error))
    | none => (m, res.1)

/-! ## The handler tables (`server.go` 60-79) -/

/-- The four methods of `handlers` that the tables hold. -/
inductive Endpoint where
  | small
  | large
  | slurp
  | periodic
  deriving DecidableEq, Repr

/-- A call of the handler function stored for an endpoint, on the `handlers` value it closes
over. -/
def Endpoint.serve (e : Endpoint) (fuel : Nat) (h : handlers) (w : ResponseWriter)
    (r : Request) : Run (handlers × ResponseWriter) :=
  match e with
  | .small => smallHandler fuel h w r
  | .large => largeHandler fuel h w r
  | .slurp => slurpHandler h w r
  | .periodic => periodicHandler fuel h w r

/-- Source: `BulkHandlers` (`server.go` 61-69): the `handlers` value, whose counters stay
nil, and the map from path to handler. -/
def BulkHandlers (pfx : String) (EnableCORS : Bool) : handlers × List (String × Endpoint) :=
  ({ EnableCORS := EnableCORS, BytesServed := none, BytesReceived := none },
   [(pfx ++ "/small", .small), (pfx ++ "/large", .large), (pfx ++ "/slurp", .slurp),
    (pfx ++ "/periodic", .periodic)])

/-- Source: `CountingBulkHandlers` (`server.go` 71-79). -/
def CountingBulkHandlers (pfx : String) (EnableCORS : Bool)
    (bytesServed bytesReceived : Option Nat) : handlers × List (String × Endpoint) :=
  ({ EnableCORS := EnableCORS, BytesServed := bytesServed, BytesReceived := bytesReceived },
   [(pfx ++ "/small", .small), (pfx ++ "/large", .large), (pfx ++ "/slurp", .slurp),
    (pfx ++ "/periodic", .periodic)])

/-! ## The serving units (`cmd/networkqualityd/main.go` 302-366) -/

/-- The sentinel `http.ErrServerClosed`, which `Serve` returns once `Shutdown` or `Close`
was called. Errors are compared by structure here, so the sentinel is the error with its
text. -/
def ErrServerClosed : GoError := .text "http: Server closed"

/-- The call `errors.Is(err, target)` for an `err` that may be nil and a non-nil target. -/
def errorsIsNilable (err : Option GoError) (target : GoError) : Bool :=
  match err with
  | none => false
  | some e => errorsIs e target

/-- What a serving-unit goroutine does, in program order: a log line, the start of the
HTTP/3 goroutine, the registration of the server in `servers`, the return of the blocking
`Serve` call, `log.Fatal` (the process exits with status 1) and `wg.Done()`. -/
inductive UnitEvent where
  | logged
  | spawnedHTTP3
  | registered
  | served
  | fatal
  | wgDone
  deriving DecidableEq, Repr

/-- Source: the goroutine started for HTTP/3 (`main.go` 326-331); `err` is what
`ListenAndServeTLS` returned. -/
def http3Unit (err : Option GoError) : List UnitEvent :=
  if !errorsIsNilable err ErrServerClosed then [.served, .fatal]
  else [.served, .wgDone]

/-- Source: the goroutine of a listener (`main.go` 302-366). `configureErr` is the result of
`http2.ConfigureServer` and `serveErr` what `server.Serve(nl)` returned. -/
def servingUnit (enableH2C enableHTTP3 enableHTTP2 : Bool) (scheme : String)
    (configureErr serveErr : Option GoError) : List UnitEvent :=
  if enableH2C then
    match serveErr with
    | some _ => [.registered, .served, .fatal]
    | none => [.registered, .served, .wgDone, .wgDone]
  else if scheme = "https" then
    let h3 : List UnitEvent := if enableHTTP3 then [.logged, .spawnedHTTP3] else []
    let h2 : Option (List UnitEvent) :=
      if enableHTTP2 then
        match configureErr with
        | some _ => none
        | none => some [.logged]
      else some []
    match h2 with
    | none => h3 ++ [.logged, .fatal]
    | some evs =>
      if !errorsIsNilable serveErr ErrServerClosed then
        h3 ++ evs ++ [.registered, .served, .fatal]
      else h3 ++ evs ++ [.registered, .served, .wgDone]
  else
    if !errorsIsNilable serveErr ErrServerClosed then [.registered, .served, .fatal]
    else [.registered, .served, .wgDone]

/-! ## Helpers used to state the theorems -/

/-- The writer after a run of `Write` calls of the given lengths (results discarded). -/
def writeAll (w : ResponseWriter) (lens : List Nat) : ResponseWriter :=
  lens.foldl (fun acc len => (acc.Write len).1) w

/-- The write lengths of a transfer of `total` bytes in chunks of `size`: the full chunks
followed by one partial chunk when `size` does not divide `total`. -/
def chunkLens (total size : Nat) : List Nat :=
  List.replicate (total / size) size ++ (if total % size = 0 then [] else [total % size])

/-- The writer of the small, large and periodic handlers once the header lines that precede
the body writer have run (`server.go` 213-218, 231-236, 262-267). -/
def bodyHeaders (cors : Bool) (w : ResponseWriter) (contentLength : Int) : ResponseWriter :=
  let w := w.setHeader "Content-Length" (toString contentLength)
  let w := w.setHeader "Content-Type" "application/octet-stream"
  if cors then setCors w else w

/-- The reads of a body that is read to end-of-file without a read error: reads of the
lengths `pre` with a nil error, then a read of `last` bytes that returns `io.EOF` (`last = 0`
is the usual bare end-of-file). -/
def eofReads (pre : List Nat) (last : Nat) : List (Nat × Option GoError) :=
  pre.map (fun k => (k, none)) ++ [(last, some GoError.eof)]

/-- The property of a run of write lengths issued against `remaining` bytes still to send:
each write is issued while something remains and has length `min remaining burst`, after
which that many bytes less remain. -/
def burstsOk (burst : Int) : Int → List Nat → Bool
  | _, [] => true
  | remaining, x :: xs =>
    decide (0 < remaining ∧ (x : Int) = min remaining burst)
      && burstsOk burst (remaining - x) xs

/-- One full iteration of the periodic loop on the writer: sleep, write a burst, flush. -/
def tick (len : Nat) (w : ResponseWriter) : ResponseWriter :=
  (w.sleep.Write len).1.flushOrLog

/-- The last iteration of the periodic loop when `len` bytes, less than a burst, remain:
sleep and write them; nothing when `len = 0`. -/
def lastTick (len : Nat) (w : ResponseWriter) : ResponseWriter :=
  if len = 0 then w else (w.sleep.Write len).1

/-- The writer of a GET on periodic with burst size `s > 0` after all the full bursts: the
header lines, status 200, then `8 GiB / min(s, 4096)` iterations of `tick`. -/
def afterFullBursts (cors : Bool) (w : ResponseWriter) (s : Int) : ResponseWriter :=
  (tick (min s 4096).toNat)^[largeContentLength.toNat / (min s 4096).toNat]
    ((bodyHeaders cors w largeContentLength).WriteHeader 200)

/-- Whether every successful write of a trace is directly followed by a flush. -/
def everyWriteFlushed : List Event → Bool
  | [] => true
  | .write _ _ none :: rest =>
    (match rest with
      | .flush :: _ => true
      | _ => false) && everyWriteFlushed rest
  | _ :: rest => everyWriteFlushed rest

/-- The two CORS headers of a header map: `Access-Control-Allow-Origin` and
`Access-Control-Allow-Headers`. -/
def corsHeaders (hd : Header) : Option String × Option String :=
  (headerGet hd "Access-Control-Allow-Origin", headerGet hd "Access-Control-Allow-Headers")

/-- The words "is or wraps" of the specification: the error is the target, or it wraps an
error that is or wraps the target. -/
inductive IsOrWraps (target : GoError) : GoError → Prop where
  | self : IsOrWraps target target
  | wrap (msg : String) (inner : GoError) :
      IsOrWraps target inner → IsOrWraps target (.wrap msg inner)

/-- The endpoint sub-paths of the discovery document, by key. -/
def discoverySubPaths : List (String × String) :=
  [("small_download_url", "/small"), ("large_download_url", "/large"),
   ("upload_url", "/slurp"), ("small_https_download_url", "/small"),
   ("large_https_download_url", "/large"), ("https_upload_url", "/slurp"),
   ("https_periodic_url", "/periodic")]

/-! ## Basic facts -/

theorem wrapInt64_of_range (x : Int) (h1 : -(2 ^ 63) ≤ x) (h2 : x < 2 ^ 63) :
    wrapInt64 x = x := by
  unfold wrapInt64
  omega

theorem uint64_of_nonneg (x : Int) (h1 : 0 ≤ x) (h2 : x < 2 ^ 63) : uint64 x = x.toNat := by
  unfold uint64
  congr 1
  omega

theorem write_ok (w : ResponseWriter) (hw : w.NeverFails) (len : Nat) :
    (w.Write len).2 = none := by
  simp [ResponseWriter.Write, hw w.calls w.delivered len]

theorem write_neverFails (w : ResponseWriter) (hw : w.NeverFails) (len : Nat) :
    (w.Write len).1.NeverFails := hw

theorem write_delivered (w : ResponseWriter) (hw : w.NeverFails) (len : Nat) :
    (w.Write len).1.delivered = w.delivered + len := by
  simp [ResponseWriter.Write, hw w.calls w.delivered len]

theorem write_trace (w : ResponseWriter) (len : Nat) :
    writeLens (w.Write len).1.trace = writeLens w.trace ++ [len] := by
  have key : ∀ (t : List Event) (e : Event) , writeLens (t ++ [e]) = writeLens t ++ writeLens [e] := by
    intro t e
    induction t with
    | nil => simp [writeLens]
    | cons x xs ih => cases x <;> simp [writeLens, ih]
  simp [ResponseWriter.Write, key, writeLens]

theorem writeAll_neverFails (lens : List Nat) :
    ∀ w : ResponseWriter, w.NeverFails → (writeAll w lens).NeverFails := by
  induction lens with
  | nil => intro w hw; exact hw
  | cons x xs ih => intro w hw; exact ih _ (write_neverFails w hw x)

theorem writeAll_append (w : ResponseWriter) (xs ys : List Nat) :
    writeAll w (xs ++ ys) = writeAll (writeAll w xs) ys := by
  simp [writeAll, List.foldl_append]

theorem writeAll_trace (lens : List Nat) :
    ∀ w : ResponseWriter, writeLens (writeAll w lens).trace = writeLens w.trace ++ lens := by
  induction lens with
  | nil => intro w; simp [writeAll]
  | cons x xs ih =>
    intro w
    have h := ih (w.Write x).1
    simp only [writeAll, List.foldl_cons] at h ⊢
    rw [h, write_trace]
    simp

theorem writeAll_delivered (lens : List Nat) :
    ∀ w : ResponseWriter, w.NeverFails →
      (writeAll w lens).delivered = w.delivered + lens.sum := by
  induction lens with
  | nil => intro w _; simp [writeAll]
  | cons x xs ih =>
    intro w hw
    have h := ih (w.Write x).1 (write_neverFails w hw x)
    simp only [writeAll, List.foldl_cons, List.sum_cons] at h ⊢
    rw [h, write_delivered w hw]
    omega

theorem chunkLens_sum (total size : Nat) : (chunkLens total size).sum = total := by
  unfold chunkLens
  have h := Nat.div_add_mod total size
  split
  · rename_i h0
    simp [List.sum_replicate]
    rw [h0] at h
    rw [Nat.mul_comm]; omega
  · simp [List.sum_replicate]
    rw [Nat.mul_comm]; omega

/-! ## The chunked writer on a transport that never fails -/

theorem chunkLoop_reliable (q : Nat) :
    ∀ (fuel : Nat) (h : handlers) (c : Nat) (w : ResponseWriter) (n : Int),
      h.BytesServed = some c → c < 2 ^ 64 → w.NeverFails → 0 ≤ n → n < 2 ^ 63 →
      n.toNat / 65536 = q → q + 1 ≤ fuel →
      chunkLoop fuel h w n =
        .done ({ h with BytesServed := some ((c + n.toNat) % 2 ^ 64) },
          writeAll w (chunkLens n.toNat 65536), none) := by
  induction q with
  | zero =>
    intro fuel h c w n hc hc64 hw h0 h63 hq hfuel
    obtain ⟨f, rfl⟩ : ∃ f, fuel = f + 1 := ⟨fuel - 1, by omega⟩
    have hlt : n.toNat < 65536 := by
      rcases Nat.lt_or_ge n.toNat 65536 with h | h
      · exact h
      · have := Nat.div_pos h (by norm_num : 0 < 65536); omega
    unfold chunkLoop
    by_cases hpos : n > 0
    · have hn : ¬ n ≥ chunkSize := by unfold chunkSize; omega
      have hs : sliceTo chunkBuffedLen n = some n.toNat := by
        unfold sliceTo chunkBuffedLen chunkSize
        rw [if_pos]; constructor <;> omega
      have hu : uint64 n = n.toNat := uint64_of_nonneg n h0 h63
      have hl : chunkLens n.toNat 65536 = [n.toNat] := by
        unfold chunkLens
        rw [hq, Nat.mod_eq_of_lt hlt, if_neg (by omega)]; rfl
      simp only [hpos, hn, if_true, if_false, hc, atomicAddUint64, hs, hu,
        write_ok w hw, hl, writeAll, List.foldl_cons, List.foldl_nil]
    · have hn0 : n = 0 := by omega
      subst hn0
      have hmod : (c + (0 : Int).toNat) % 2 ^ 64 = c := by
        simpa using Nat.mod_eq_of_lt hc64
      simp only [hmod]
      simp [chunkLens, writeAll, ← hc]
  | succ q ih =>
    intro fuel h c w n hc hc64 hw h0 h63 hq hfuel
    obtain ⟨f, rfl⟩ : ∃ f, fuel = f + 1 := ⟨fuel - 1, by omega⟩
    have hge : 65536 ≤ n.toNat := by
      rcases Nat.lt_or_ge n.toNat 65536 with h | h
      · rw [Nat.div_eq_of_lt h] at hq; omega
      · exact h
    have hpos : n > 0 := by omega
    have hn : n ≥ chunkSize := by unfold chunkSize; omega
    have hu : uint64 chunkSize = 65536 := by
      rw [uint64_of_nonneg] <;> simp [chunkSize]
    have hwrap : wrapInt64 (n - chunkSize) = n - 65536 := by
      rw [wrapInt64_of_range] <;> unfold chunkSize <;> omega
    have htn : (n - 65536).toNat = n.toNat - 65536 := by omega
    have hq' : (n - 65536).toNat / 65536 = q := by
      rw [htn]
      have := Nat.sub_mul_div n.toNat 65536 1 (by omega)
      simp only [Nat.one_mul] at this
      omega
    have hmodc : (c + 65536) % 2 ^ 64 < 2 ^ 64 := Nat.mod_lt _ (by norm_num)
    have hrec := ih f { h with BytesServed := some ((c + 65536) % 2 ^ 64) }
      ((c + 65536) % 2 ^ 64) (w.Write chunkBuffedLen).1 (n - 65536) rfl hmodc
      (write_neverFails w hw _) (by omega) (by omega) hq' (by omega)
    have hl : chunkLens n.toNat 65536 = 65536 :: chunkLens (n - 65536).toNat 65536 := by
      unfold chunkLens
      rw [hq, hq', htn]
      have hm : (n.toNat - 65536) % 65536 = n.toNat % 65536 := by omega
      rw [hm, List.replicate_succ]; rfl
    have hcnt : ((c + 65536) % 2 ^ 64 + (n - 65536).toNat) % 2 ^ 64
        = (c + n.toNat) % 2 ^ 64 := by
      rw [htn]; omega
    unfold chunkLoop
    simp only [hpos, hn, if_true, hc, atomicAddUint64, hu, write_ok w hw, hwrap]
    rw [hrec, hl, hcnt]
    simp [writeAll, chunkBuffedLen, chunkSize]

theorem writeLens_append (a b : List Event) :
    writeLens (a ++ b) = writeLens a ++ writeLens b := by
  induction a with
  | nil => simp [writeLens]
  | cons x xs ih => cases x <;> simp [writeLens, ih]

theorem chunkedBodyWriter_reliable (fuel : Nat) (h : handlers) (c : Nat) (w : ResponseWriter)
    (L : Int) (hc : h.BytesServed = some c) (hc64 : c < 2 ^ 64) (hw : w.NeverFails)
    (h0 : 0 ≤ L) (h63 : L < 2 ^ 63) (hfuel : L.toNat / 65536 + 1 ≤ fuel) :
    chunkedBodyWriter fuel h w L =
      .done ({ h with BytesServed := some ((c + L.toNat) % 2 ^ 64) },
        writeAll (w.WriteHeader 200) (chunkLens L.toNat 65536), none) :=
  chunkLoop_reliable (L.toNat / 65536) fuel h c (w.WriteHeader 200) L hc hc64 hw h0 h63 rfl hfuel

theorem bodyHeaders_fields (cors : Bool) (w : ResponseWriter) (len : Int) :
    (bodyHeaders cors w len).trace = w.trace ∧ (bodyHeaders cors w len).delivered = w.delivered
      ∧ (bodyHeaders cors w len).peer = w.peer ∧ (bodyHeaders cors w len).calls = w.calls
      ∧ (bodyHeaders cors w len).flushable = w.flushable
      ∧ (bodyHeaders cors w len).sent = w.sent := by
  cases cors <;> simp [bodyHeaders, setCors, ResponseWriter.setHeader]

theorem bodyHeaders_neverFails (cors : Bool) (w : ResponseWriter) (len : Int)
    (hw : w.NeverFails) : (bodyHeaders cors w len).NeverFails := by
  intro a b c
  rw [(bodyHeaders_fields cors w len).2.2.1]
  exact hw a b c

theorem smallHandler_reliable (fuel : Nat) (cors : Bool) (served received : Nat)
    (w : ResponseWriter) (r : Request) (hserved : served < 2 ^ 64) (hw : w.NeverFails)
    (hr : r.Method = "GET" ∨ r.Method = "HEAD") (hfuel : 1 ≤ fuel) :
    smallHandler fuel (countingHandlers cors served received) w r =
      .done (countingHandlers cors ((served + 1) % 2 ^ 64) received,
        writeAll ((bodyHeaders cors w smallContentLength).WriteHeader 200) [1]) := by
  have hm : ¬ (r.Method ≠ "GET" ∧ r.Method ≠ "HEAD") := by
    rcases hr with h | h <;> simp [h]
  have hrun := chunkedBodyWriter_reliable fuel (countingHandlers cors served received) served
    (bodyHeaders cors w smallContentLength) smallContentLength rfl hserved
    (bodyHeaders_neverFails cors w _ hw) (by decide) (by decide)
    (by simpa [smallContentLength] using hfuel)
  unfold smallHandler
  rw [if_neg hm]
  simp only [countingHandlers, bodyHeaders] at hrun ⊢
  rw [hrun]
  simp [logUnlessIgnorable, ignorableError, smallContentLength, chunkLens]

theorem largeHandler_reliable (fuel : Nat) (cors : Bool) (served received : Nat)
    (w : ResponseWriter) (r : Request) (hserved : served < 2 ^ 64) (hw : w.NeverFails)
    (hr : r.Method = "GET") (hfuel : 131073 ≤ fuel) :
    largeHandler fuel (countingHandlers cors served received) w r =
      .done (countingHandlers cors ((served + 8589934592) % 2 ^ 64) received,
        writeAll ((bodyHeaders cors w largeContentLength).WriteHeader 200)
          (List.replicate 131072 65536)) := by
  have hm : ¬ (r.Method ≠ "GET" ∧ r.Method ≠ "HEAD") := by simp [hr]
  have hL : largeContentLength.toNat = 8589934592 := by simp [largeContentLength]
  have hrun := chunkedBodyWriter_reliable fuel (countingHandlers cors served received) served
    (bodyHeaders cors w largeContentLength) largeContentLength rfl hserved
    (bodyHeaders_neverFails cors w _ hw) (by decide) (by decide) (by rw [hL]; omega)
  have hl : chunkLens 8589934592 65536 = List.replicate 131072 65536 := by
    unfold chunkLens
    rw [show 8589934592 / 65536 = 131072 from by norm_num,
      if_pos (show 8589934592 % 65536 = 0 from by norm_num)]
    exact List.append_nil _
  rw [hL, hl] at hrun
  unfold largeHandler
  rw [if_neg hm]
  simp only [countingHandlers, bodyHeaders] at hrun ⊢
  rw [if_neg (by simp [hr]), hrun]
  simp only [logUnlessIgnorable, ignorableError, if_true]

/-- Claim C1. On a transport whose writes never fail, for every content length `L ≥ 0` (an
`int64`), `chunkedBodyWriter` returns the nil error once given `L / 65536 + 1` units of fuel,
after issuing `L / 65536` writes of exactly 65536 bytes followed by one write of `L % 65536`
bytes when that remainder is not zero and by nothing otherwise; the lengths sum to `L` and `L`
bytes are delivered. In particular a GET (or HEAD) on small delivers exactly 1 byte in one
write and a GET on large delivers exactly 8 GiB in 131072 writes of 65536 bytes. -/
theorem chunkedBodyWriter_streams_exactly_content_length (cors : Bool)
    (served received : Nat) (w : ResponseWriter) (L : Int)
    (hserved : served < 2 ^ 64) (hw : w.NeverFails) (h0 : 0 ≤ L) (h63 : L < 2 ^ 63) :
    (∃ h' w',
      (∀ fuel, L.toNat / 65536 + 1 ≤ fuel →
        chunkedBodyWriter fuel (countingHandlers cors served received) w L
          = .done (h', w', none)) ∧
      writeLens w'.trace = writeLens w.trace ++
        (List.replicate (L.toNat / 65536) 65536 ++
          (if L.toNat % 65536 = 0 then [] else [L.toNat % 65536])) ∧
      (List.replicate (L.toNat / 65536) 65536 ++
          (if L.toNat % 65536 = 0 then [] else [L.toNat % 65536])).sum = L.toNat ∧
      w'.delivered = w.delivered + L.toNat) ∧
    (∀ r : Request, r.Method = "GET" ∨ r.Method = "HEAD" →
      ∃ h' w',
        (∀ fuel, 1 ≤ fuel →
          smallHandler fuel (countingHandlers cors served received) w r = .done (h', w')) ∧
        writeLens w'.trace = writeLens w.trace ++ [1] ∧
        w'.delivered = w.delivered + 1) ∧
    (∀ r : Request, r.Method = "GET" →
      ∃ h' w',
        (∀ fuel, 131073 ≤ fuel →
          largeHandler fuel (countingHandlers cors served received) w r = .done (h', w')) ∧
        writeLens w'.trace = writeLens w.trace ++ List.replicate 131072 65536 ∧
        w'.delivered = w.delivered + 8 * 1024 * 1024 * 1024) := by
  refine ⟨?_, ?_, ?_⟩
  · refine ⟨_, _, fun fuel hfuel =>
      chunkedBodyWriter_reliable fuel _ served w L rfl hserved hw h0 h63 hfuel, ?_, ?_, ?_⟩
    · rw [writeAll_trace]
      simp [ResponseWriter.WriteHeader, writeLens_append, writeLens, chunkLens]
    · exact chunkLens_sum L.toNat 65536
    · rw [writeAll_delivered _ (w.WriteHeader 200) hw, chunkLens_sum]
      rfl
  · intro r hr
    obtain ⟨ht, hd, _⟩ := bodyHeaders_fields cors w smallContentLength
    refine ⟨_, _, fun fuel hfuel =>
      smallHandler_reliable fuel cors served received w r hserved hw hr hfuel, ?_, ?_⟩
    · rw [writeAll_trace]
      simp [ResponseWriter.WriteHeader, writeLens_append, ht, writeLens]
    · rw [writeAll_delivered _ (ResponseWriter.WriteHeader _ 200)
        (bodyHeaders_neverFails cors w _ hw)]
      simp [ResponseWriter.WriteHeader, hd]
  · intro r hr
    obtain ⟨ht, hd, _⟩ := bodyHeaders_fields cors w largeContentLength
    refine ⟨_, _, fun fuel hfuel =>
      largeHandler_reliable fuel cors served received w r hserved hw hr hfuel, ?_, ?_⟩
    · rw [writeAll_trace]
      simp only [ResponseWriter.WriteHeader, writeLens_append, ht, writeLens,
        List.append_nil]
    · rw [writeAll_delivered _ (ResponseWriter.WriteHeader _ 200)
        (bodyHeaders_neverFails cors w _ hw), List.sum_replicate]
      simp only [ResponseWriter.WriteHeader, hd]
      norm_num

/-- Witness for C1: the fresh writer on the reliable transport, content length 131073. -/
theorem chunkedBodyWriter_streams_exactly_content_length_witness :
    (ResponseWriter.fresh true reliablePeer).NeverFails ∧
    ∃ h' w',
      (∀ fuel, (131073 : Int).toNat / 65536 + 1 ≤ fuel →
        chunkedBodyWriter fuel (countingHandlers false 0 0)
          (ResponseWriter.fresh true reliablePeer) 131073 = .done (h', w', none)) ∧
      writeLens w'.trace = [65536, 65536, 1] :=
  ⟨fun _ _ _ => rfl, by
    obtain ⟨h', w', hrun, htrace, _, _⟩ :=
      (chunkedBodyWriter_streams_exactly_content_length false 0 0
        (ResponseWriter.fresh true reliablePeer) 131073 (by norm_num) (fun _ _ _ => rfl)
        (by norm_num) (by norm_num)).1
    exact ⟨h', w', hrun, by simpa [ResponseWriter.fresh, writeLens] using htrace⟩⟩

/-! ## The slurp handler -/

theorem uint64_natCast (k : Nat) : uint64 (k : Int) = k % 2 ^ 64 := by
  unfold uint64
  omega

theorem ReadFrom_eofReads (last : Nat) (pre : List Nat) :
    ∀ (c : Nat) (n : Int), ∃ n',
      ReadFrom (some c) (eofReads pre last) n
        = .done (some ((c + (pre.sum + last)) % 2 ^ 64), n', none) := by
  induction pre with
  | nil =>
    intro c n
    refine ⟨wrapInt64 (n + last), ?_⟩
    simp [eofReads, ReadFrom, atomicAddUint64, uint64_natCast]
  | cons k ks ih =>
    intro c n
    obtain ⟨n', hn'⟩ := ih ((c + uint64 (k : Int)) % 2 ^ 64) (wrapInt64 (n + k))
    refine ⟨n', ?_⟩
    have hstep : ReadFrom (some c) (eofReads (k :: ks) last) n
        = ReadFrom (some ((c + uint64 (k : Int)) % 2 ^ 64)) (eofReads ks last)
            (wrapInt64 (n + k)) := by
      simp [eofReads, ReadFrom, atomicAddUint64]
    rw [hstep, hn', uint64_natCast]
    congr 3
    simp only [List.sum_cons]
    omega

theorem ReadFrom_exhausted (pre : List Nat) :
    ∀ (c : Nat) (n : Int), ∃ n',
      ReadFrom (some c) (pre.map (fun k => (k, none))) n
        = .done (some ((c + pre.sum) % 2 ^ 64), n', none) := by
  induction pre with
  | nil =>
    intro c n
    refine ⟨wrapInt64 (n + 0), ?_⟩
    simp [ReadFrom, atomicAddUint64, uint64]
  | cons k ks ih =>
    intro c n
    obtain ⟨n', hn'⟩ := ih ((c + uint64 (k : Int)) % 2 ^ 64) (wrapInt64 (n + k))
    refine ⟨n', ?_⟩
    have hstep : ReadFrom (some c) ((k :: ks).map (fun k => (k, none))) n
        = ReadFrom (some ((c + uint64 (k : Int)) % 2 ^ 64)) (ks.map (fun k => (k, none)))
            (wrapInt64 (n + k)) := by
      simp [ReadFrom, atomicAddUint64]
    rw [hstep, hn', uint64_natCast]
    congr 3
    simp only [List.sum_cons]
    omega

/-- The writer of the slurp handler after its header lines (`server.go` 366-371). -/
theorem slurpHeaders_sent (cors : Bool) (flushable : Bool)
    (peer : Nat → Nat → Nat → Nat × Option GoError) :
    let w := setNoPublicCache ((ResponseWriter.fresh flushable peer).setHeader "Content-Type"
      "application/octet-stream")
    ((if cors then setCors w else w).WriteHeader 200).response.1 = 200 ∧
    writeLens ((if cors then setCors w else w).WriteHeader 200).trace = [] := by
  cases cors <;>
    simp [setCors, setNoPublicCache, ResponseWriter.setHeader, ResponseWriter.WriteHeader,
      ResponseWriter.response, ResponseWriter.fresh, writeLens]

/-- Bodies drained through `ReadFrom`. For every request method and query and every body
that only has `Read` and is read to end-of-file without a read error, whatever the lengths
`pre` of its reads and whether the end-of-file comes together with the last `last` bytes,
alone (`last = 0`) or from a reader that has nothing left, and for `http.NoBody`,
`slurpHandler` answers 200 without writing a body, the received-bytes counter becomes
`(received + L) mod 2^64` for the body length `L` (which is `received + L` unless the 64-bit
counter wraps) and the served-bytes counter is unchanged. -/
theorem slurpHandler_counts_every_body_byte (cors : Bool) (served received : Nat)
    (flushable : Bool) (peer : Nat → Nat → Nat → Nat × Option GoError) (method : String)
    (query : Values) (pre : List Nat) (last : Nat) :
    (∃ w' recv',
      slurpHandler (countingHandlers cors served received)
          (ResponseWriter.fresh flushable peer) ⟨method, query, .reader (eofReads pre last)⟩
        = .done (countingHandlers cors served recv', w') ∧
      recv' = (received + (pre.sum + last)) % 2 ^ 64 ∧
      (received + (pre.sum + last) < 2 ^ 64 → recv' = received + (pre.sum + last)) ∧
      w'.response.1 = 200 ∧ writeLens w'.trace = []) ∧
    (∃ w' recv',
      slurpHandler (countingHandlers cors served received)
          (ResponseWriter.fresh flushable peer)
          ⟨method, query, .reader (pre.map (fun k => (k, none)))⟩
        = .done (countingHandlers cors served recv', w') ∧
      recv' = (received + pre.sum) % 2 ^ 64 ∧
      (received + pre.sum < 2 ^ 64 → recv' = received + pre.sum) ∧
      w'.response.1 = 200 ∧ writeLens w'.trace = []) ∧
    (∃ w',
      slurpHandler (countingHandlers cors served received)
          (ResponseWriter.fresh flushable peer) ⟨method, query, .noBody⟩
        = .done (countingHandlers cors served received, w') ∧
      w'.response.1 = 200 ∧ writeLens w'.trace = []) := by
  obtain ⟨hs, ht⟩ := slurpHeaders_sent cors flushable peer
  refine ⟨?_, ?_, ?_⟩
  · obtain ⟨n', hn'⟩ := ReadFrom_eofReads last pre received 0
    refine ⟨_, _, ?_, rfl, fun h => Nat.mod_eq_of_lt h, hs, ht⟩
    simp only [slurpHandler, countingHandlers, ioCopy, hn']
  · obtain ⟨n', hn'⟩ := ReadFrom_exhausted pre received 0
    refine ⟨_, _, ?_, rfl, fun h => Nat.mod_eq_of_lt h, hs, ht⟩
    simp only [slurpHandler, countingHandlers, ioCopy, hn']
  · refine ⟨_, ?_, hs, ht⟩
    simp only [slurpHandler, countingHandlers, ioCopy]

theorem writeChunks_counter (chunks : List Chunk) :
    ∀ (cb : countingDiscard) (n : Int), (writeChunks cb chunks n).1 = cb := by
  induction chunks with
  | nil => intro cb n; rfl
  | cons x xs ih =>
    intro cb n
    cases x with
    | bytes p => exact ih _ _
    | text t => exact ih _ _

/-- Claim C2 (evaluation of the code at the failing input). A body that implements
`io.WriterTo` is drained by `io.Copy` through `Write` and `WriteString`, which never count:
for every such body, of whatever length, `slurpHandler` answers 200 and returns both counters
as they were. For the body `hello` of 5 bytes a received-bytes counter that held 10 holds 10
and not 15. -/
theorem slurpHandler_writerTo_body_not_counted (cors : Bool) (served received : Nat)
    (flushable : Bool) (peer : Nat → Nat → Nat → Nat × Option GoError) (method : String)
    (query : Values) (chunks : List Chunk) :
    (∃ w',
      slurpHandler (countingHandlers cors served received)
          (ResponseWriter.fresh flushable peer) ⟨method, query, .writerTo chunks⟩
        = .done (countingHandlers cors served received, w') ∧
      w'.response.1 = 200 ∧ writeLens w'.trace = []) ∧
    (∃ w',
      slurpHandler (countingHandlers false 0 10) (ResponseWriter.fresh true reliablePeer)
          ⟨"POST", [], .writerTo [.text "hello"]⟩
        = .done (countingHandlers false 0 10, w') ∧
      w'.response.1 = 200) ∧
    chunksLength [.text "hello"] = 5 ∧
    (countingHandlers false 0 10).BytesReceived ≠ some (10 + chunksLength [.text "hello"])
    := by
  obtain ⟨hs, ht⟩ := slurpHeaders_sent cors flushable peer
  refine ⟨⟨_, ?_, hs, ht⟩, ⟨_, rfl, rfl⟩, by decide, by decide⟩
  simp only [slurpHandler, countingHandlers, ioCopy, writeChunks_counter]

/-! ## The periodic writer -/

theorem roundNat53_ge (a : Nat) (h : 2 ^ 53 ≤ a) : 2 ^ 52 ≤ roundNat53 a := by
  have ha : a ≠ 0 := by
    intro h0; rw [h0] at h; norm_num at h
  have hlog : 53 ≤ Nat.log2 a := (Nat.le_log2 ha).2 h
  have hpow : 2 ^ (Nat.log2 a - 52) * 2 ^ 52 ≤ a := by
    rw [← Nat.pow_add, Nat.sub_add_cancel (by omega)]
    exact Nat.log2_self_le ha
  have hulp : 0 < 2 ^ (Nat.log2 a - 52) := Nat.pow_pos (by norm_num)
  have hm : 2 ^ 52 ≤ a / 2 ^ (Nat.log2 a - 52) := by
    rw [Nat.le_div_iff_mul_le hulp, Nat.mul_comm]
    exact hpow
  have hmul : 2 ^ 52 ≤ a / 2 ^ (Nat.log2 a - 52) * 2 ^ (Nat.log2 a - 52) :=
    le_trans hm (Nat.le_mul_of_pos_right _ hulp)
  have hmul' : 2 ^ 52 ≤ (a / 2 ^ (Nat.log2 a - 52) + 1) * 2 ^ (Nat.log2 a - 52) :=
    le_trans hmul (Nat.mul_le_mul_right _ (Nat.le_succ _))
  unfold roundNat53
  rw [if_neg (by omega)]
  simp only
  split_ifs <;> assumption

/-- For a positive `int64` the clamp of line 309 is `min s 4096`, also when `float64(s)`
rounds. -/
theorem clampPeriodicSize_pos (s : Int) (h0 : 0 < s) (_h63 : s < 2 ^ 63) :
    clampPeriodicSize s = min s 4096 := by
  have h4096 : float64OfInt64 maxPeriodicSize = 4096 := by
    simp [float64OfInt64, maxPeriodicSize, roundNat53]
  unfold clampPeriodicSize
  rw [h4096]
  unfold float64OfInt64
  rw [if_neg (by omega)]
  by_cases hsmall : s.natAbs < 2 ^ 53
  · have hr : roundNat53 s.natAbs = s.natAbs := by
      unfold roundNat53; rw [if_pos hsmall]
    rw [hr]
    have hcast : ((s.natAbs : Nat) : Int) = s := by omega
    rw [hcast]
    unfold mathMin int64OfFloat64
    split_ifs <;> omega
  · have hr := roundNat53_ge s.natAbs (by omega)
    have hbig : (4096 : Int) < ((roundNat53 s.natAbs : Nat) : Int) := by
      have : (2 : Nat) ^ 52 = 4503599627370496 := by norm_num
      omega
    have hmin : mathMin ((roundNat53 s.natAbs : Nat) : Int) 4096 = 4096 := by
      unfold mathMin; rw [if_neg (by omega)]
    have hconv : int64OfFloat64 4096 = 4096 := by
      unfold int64OfFloat64; rw [if_pos (by constructor <;> norm_num)]
    rw [hmin, hconv]
    omega

theorem sleep_writeLens (w : ResponseWriter) : writeLens w.sleep.trace = writeLens w.trace := by
  simp [ResponseWriter.sleep, writeLens_append, writeLens]

theorem flushOrLog_writeLens (w : ResponseWriter) :
    writeLens w.flushOrLog.trace = writeLens w.trace := by
  unfold ResponseWriter.flushOrLog
  split <;> simp [writeLens_append, writeLens]

theorem sliceTo_periodic (x : Int) (h0 : 0 ≤ x) (h1 : x ≤ 4096) :
    sliceTo periodicBuffedLen x = some x.toNat := by
  unfold sliceTo periodicBuffedLen maxPeriodicSize
  rw [if_pos]
  constructor <;> omega

/-- Whatever the transport does, with a burst size `P` between 1 and 4096 the loop ends within
`f + 1` iterations when `n ≤ f * P`, and every write it issued is `min remaining P` long. -/
theorem periodicLoop_bursts (P : Int) (hP1 : 1 ≤ P) (hP2 : P ≤ 4096) (f : Nat) :
    ∀ (h : handlers) (c : Nat) (w : ResponseWriter) (n : Int),
      h.BytesServed = some c → n < 2 ^ 63 → n ≤ f * P →
      ∃ h' w' err ws,
        periodicLoop (f + 1) h w P n = .done (h', w', err) ∧
        writeLens w'.trace = writeLens w.trace ++ ws ∧
        burstsOk P n ws = true ∧
        (∀ x ∈ ws.dropLast, (x : Int) = P) := by
  induction f with
  | zero =>
    intro h c w n _ _ hn
    refine ⟨h, w, none, [], ?_, by simp, rfl, by simp⟩
    unfold periodicLoop
    rw [if_neg (by omega)]
  | succ f ih =>
    intro h c w n hc h63 hn
    by_cases hpos : n > 0
    · by_cases hge : n ≥ P
      · have hs := sliceTo_periodic P (by omega) hP2
        have hwrap : wrapInt64 (n - P) = n - P := by
          rw [wrapInt64_of_range] <;> omega
        have hb : burstsOk P n [P.toNat] = true := by
          simp only [burstsOk, Bool.and_true, decide_eq_true_eq]
          constructor <;> omega
        cases hres : (w.sleep.Write P.toNat).2 with
        | some e =>
          refine ⟨{ h with BytesServed := some ((c + uint64 P) % 2 ^ 64) },
            (w.sleep.Write P.toNat).1, some e, [P.toNat], ?_, ?_, hb, by simp⟩
          · unfold periodicLoop
            simp only [hpos, hge, if_true, hc, atomicAddUint64, hs, hres]
          · rw [write_trace, sleep_writeLens]
        | none =>
          have hn' : n - P ≤ (f : Int) * P := by
            have : ((f + 1 : Nat) : Int) * P = f * P + P := by push_cast; ring
            omega
          obtain ⟨h', w', err, ws, hrun, htr, hbs, hall⟩ :=
            ih { h with BytesServed := some ((c + uint64 P) % 2 ^ 64) }
              ((c + uint64 P) % 2 ^ 64) (w.sleep.Write P.toNat).1.flushOrLog (n - P) rfl
              (by omega) hn'
          refine ⟨h', w', err, P.toNat :: ws, ?_, ?_, ?_, ?_⟩
          · rw [periodicLoop]
            simp only [hpos, hge, if_true, hc, atomicAddUint64, hs, hres, hwrap]
            exact hrun
          · rw [htr, flushOrLog_writeLens, write_trace, sleep_writeLens]
            simp
          · have hcast : ((P.toNat : Nat) : Int) = P := by omega
            simp only [burstsOk, Bool.and_eq_true, decide_eq_true_eq, hcast]
            exact ⟨⟨by omega, by omega⟩, hbs⟩
          · intro x hx
            cases ws with
            | nil => simp at hx
            | cons y ys =>
              rw [List.dropLast_cons₂] at hx
              rcases List.mem_cons.1 hx with hx | hx
              · rw [hx]; omega
              · exact hall x hx
      · have hs := sliceTo_periodic n (by omega) (by omega)
        have hb : burstsOk P n [n.toNat] = true := by
          simp only [burstsOk, Bool.and_true, decide_eq_true_eq]
          constructor <;> omega
        refine ⟨{ h with BytesServed := some ((c + uint64 n) % 2 ^ 64) },
          (w.sleep.Write n.toNat).1, (w.sleep.Write n.toNat).2, [n.toNat],
          ?_, ?_, hb, by simp⟩
        · unfold periodicLoop
          simp only [hpos, hge, if_true, if_false, hc, atomicAddUint64, hs]
          cases (w.sleep.Write n.toNat).2 <;> rfl
        · rw [write_trace, sleep_writeLens]
    · refine ⟨h, w, none, [], ?_, by simp, rfl, by simp⟩
      unfold periodicLoop
      rw [if_neg hpos]

/-- Claim C3. For every requested burst size `s > 0` (an `int64`, also above 4096 and also
where `float64(s)` rounds), line 309 clamps it to `min s 4096`, and whatever the transport
answers and whatever the content length `L`, `periodicBodyWriter` returns once it has
`L / min(s, 4096) + 2` units of fuel and every write it issued has length
`min remaining (min s 4096)`, where `remaining` is `L` less the lengths of the earlier writes
and is positive; so every write but possibly the last is exactly `min s 4096` bytes long. -/
theorem periodicBodyWriter_write_lengths (cors : Bool) (served received : Nat)
    (w : ResponseWriter) (s L : Int) (fuel : Nat) (hs : 0 < s) (hs63 : s < 2 ^ 63)
    (hL : L < 2 ^ 63) (hfuel : L.toNat / (min s 4096).toNat + 2 ≤ fuel) :
    clampPeriodicSize s = min s 4096 ∧
    ∃ h' w' err ws,
      periodicBodyWriter fuel (countingHandlers cors served received) w s L
        = .done (h', w', err) ∧
      writeLens w'.trace = writeLens w.trace ++ ws ∧
      burstsOk (min s 4096) L ws = true ∧
      (∀ x ∈ ws.dropLast, (x : Int) = min s 4096) := by
  refine ⟨clampPeriodicSize_pos s hs hs63, ?_⟩
  have h2 : 2 ≤ fuel := le_trans (Nat.le_add_left 2 _) hfuel
  obtain ⟨f, rfl⟩ : ∃ f, fuel = f + 1 := ⟨fuel - 1, by omega⟩
  have hf : L.toNat / (min s 4096).toNat + 1 ≤ f := Nat.le_of_succ_le_succ hfuel
  have hP1 : 1 ≤ min s 4096 := by omega
  have hP2 : min s 4096 ≤ 4096 := by omega
  have hPn : 0 < (min s 4096).toNat := by omega
  have hlt : L.toNat < (L.toNat / (min s 4096).toNat + 1) * (min s 4096).toNat :=
    Nat.lt_mul_of_div_lt (Nat.lt_succ_self _) hPn
  have hle : (L.toNat / (min s 4096).toNat + 1) * (min s 4096).toNat
      ≤ f * (min s 4096).toNat := Nat.mul_le_mul_right _ hf
  have hbound : L ≤ (f : Int) * min s 4096 := by
    have hcast : (((min s 4096).toNat : Nat) : Int) = min s 4096 := by omega
    have h1 : ((L.toNat : Nat) : Int) ≤ ((f * (min s 4096).toNat : Nat) : Int) := by
      exact_mod_cast le_of_lt (lt_of_lt_of_le hlt hle)
    rw [Nat.cast_mul, hcast] at h1
    omega
  obtain ⟨h', w', err, ws, hrun, htr, hb, hall⟩ :=
    periodicLoop_bursts (min s 4096) hP1 hP2 f (countingHandlers cors served received) served
      (w.WriteHeader 200) L rfl hL hbound
  refine ⟨h', w', err, ws, ?_, ?_, hb, hall⟩
  · unfold periodicBodyWriter
    rw [clampPeriodicSize_pos s hs hs63]
    exact hrun
  · rw [htr]
    simp [ResponseWriter.WriteHeader, writeLens_append, writeLens]

/-- Witness for C3: the largest `int64` as burst size, which `float64` rounds to `2^63`. -/
theorem periodicBodyWriter_write_lengths_witness :
    (0 : Int) < 9223372036854775807 ∧
    clampPeriodicSize 9223372036854775807 = min 9223372036854775807 4096 ∧
    ∃ h' w' err ws,
      periodicBodyWriter 5 (countingHandlers false 0 0) (ResponseWriter.fresh true reliablePeer)
        9223372036854775807 10000 = .done (h', w', err) ∧
      writeLens w'.trace = writeLens (ResponseWriter.fresh true reliablePeer).trace ++ ws ∧
      burstsOk (min 9223372036854775807 4096) 10000 ws = true ∧
      (∀ x ∈ ws.dropLast, (x : Int) = min 9223372036854775807 4096) :=
  ⟨by norm_num,
    periodicBodyWriter_write_lengths false 0 0 (ResponseWriter.fresh true reliablePeer)
      9223372036854775807 10000 5 (by norm_num) (by norm_num) (by norm_num) (by decide)⟩

theorem flushOrLog_neverFails (w : ResponseWriter) (hw : w.NeverFails) :
    w.flushOrLog.NeverFails := by
  unfold ResponseWriter.flushOrLog
  split <;> exact hw

/-- With burst size 0 the loop of the periodic writer never ends on a transport that accepts
every write: each iteration writes the empty slice and leaves `n` as it was. -/
theorem periodicLoop_zero_outOfFuel (fuel : Nat) :
    ∀ (h : handlers) (c : Nat) (w : ResponseWriter) (n : Int),
      h.BytesServed = some c → w.NeverFails → 0 < n → n < 2 ^ 63 →
      periodicLoop fuel h w 0 n = .outOfFuel := by
  induction fuel with
  | zero => intro h c w n _ _ _ _; rfl
  | succ f ih =>
    intro h c w n hc hw hpos h63
    have hs := sliceTo_periodic 0 (le_refl 0) (by norm_num)
    have hwrap : wrapInt64 (n - 0) = n := by
      rw [wrapInt64_of_range] <;> omega
    have hwoke : (w.sleep.Write (0 : Int).toNat).2 = none := write_ok w.sleep hw _
    have hrec := ih { h with BytesServed := some ((c + uint64 0) % 2 ^ 64) }
      ((c + uint64 0) % 2 ^ 64) (w.sleep.Write (0 : Int).toNat).1.flushOrLog n rfl
      (flushOrLog_neverFails _ (write_neverFails w.sleep hw _)) hpos h63
    rw [periodicLoop]
    have hge : n ≥ 0 := by omega
    simp only [gt_iff_lt, hpos, hge, if_true, hc, atomicAddUint64, hs, hwoke, hwrap]
    exact hrec

/-- Claim C4 (evaluation of the code at the failing inputs). `strconv.ParseInt` accepts the
size values `0` and `-1`, and on a transport whose writes never fail: for `size=0` a GET on
periodic is still running after any number of loop iterations (no amount of fuel lets it
return), and for `size=-1` it panics in the first iteration on the slice
`periodicBuffed[:-1]`. -/
theorem periodicHandler_nonpositive_size (cors : Bool) (served received : Nat)
    (flushable : Bool) :
    ParseInt "0" = some 0 ∧ ParseInt "-1" = some (-1) ∧
    (∀ fuel, periodicHandler fuel (countingHandlers cors served received)
        (ResponseWriter.fresh flushable reliablePeer)
        ⟨"GET", [("size", ["0"])], .noBody⟩ = .outOfFuel) ∧
    (∀ fuel, periodicHandler (fuel + 1) (countingHandlers cors served received)
        (ResponseWriter.fresh flushable reliablePeer)
        ⟨"GET", [("size", ["-1"])], .noBody⟩ = .panic "slice bounds out of range") := by
  have hp0 : ParseInt "0" = some 0 := by decide
  have hp1 : ParseInt "-1" = some (-1) := by decide
  have hc0 : clampPeriodicSize 0 = 0 := by decide
  have hc1 : clampPeriodicSize (-1) = -1 := by decide
  have hget : ¬ ("GET" ≠ "GET" ∧ "GET" ≠ "HEAD") := by decide
  have hhas0 : valuesHas [("size", ["0"])] "size" = true := by decide
  have hget0 : valuesGet [("size", ["0"])] "size" = "0" := by decide
  have hhas1 : valuesHas [("size", ["-1"])] "size" = true := by decide
  have hget1 : valuesGet [("size", ["-1"])] "size" = "-1" := by decide
  refine ⟨hp0, hp1, ?_, ?_⟩
  · intro fuel
    have hw : (bodyHeaders cors (ResponseWriter.fresh flushable reliablePeer)
        largeContentLength).NeverFails :=
      bodyHeaders_neverFails _ _ _ (fun _ _ _ => rfl)
    have hloop := periodicLoop_zero_outOfFuel fuel (countingHandlers cors served received)
      served ((bodyHeaders cors (ResponseWriter.fresh flushable reliablePeer)
        largeContentLength).WriteHeader 200) largeContentLength rfl hw (by decide) (by decide)
    unfold periodicHandler
    simp only [hget, hhas0, hget0, hp0, if_false, Bool.not_true, Bool.false_eq_true]
    simp only [countingHandlers, bodyHeaders, periodicBodyWriter, hc0] at hloop ⊢
    rw [if_neg (by decide), hloop]
    rfl
  · intro fuel
    unfold periodicHandler
    simp only [hget, hhas1, hget1, hp1, if_false, Bool.not_true, Bool.false_eq_true]
    simp only [countingHandlers, periodicBodyWriter, hc1]
    rw [if_neg (by decide), periodicLoop]
    have hs : sliceTo periodicBuffedLen (-1) = none := by decide
    simp only [atomicAddUint64, hs]
    rw [if_pos (by decide), if_pos (by decide)]
    rfl

/-- On a transport that never fails, with a burst size `P` between 1 and 4096, the loop runs
`n / P` full iterations and one last partial iteration when `P` does not divide `n`. -/
theorem periodicLoop_reliable (P : Int) (hP1 : 1 ≤ P) (hP2 : P ≤ 4096) (q : Nat) :
    ∀ (fuel : Nat) (h : handlers) (c : Nat) (w : ResponseWriter) (n : Int),
      h.BytesServed = some c → c < 2 ^ 64 → w.NeverFails → 0 ≤ n → n < 2 ^ 63 →
      n.toNat / P.toNat = q → q + 1 ≤ fuel →
      periodicLoop fuel h w P n =
        .done ({ h with BytesServed := some ((c + n.toNat) % 2 ^ 64) },
          lastTick (n.toNat % P.toNat) ((tick P.toNat)^[q] w), none) := by
  have hPn : 0 < P.toNat := by omega
  induction q with
  | zero =>
    intro fuel h c w n hc hc64 hw h0 h63 hq hfuel
    obtain ⟨f, rfl⟩ : ∃ f, fuel = f + 1 := ⟨fuel - 1, by omega⟩
    have hlt : n.toNat < P.toNat := by
      rcases Nat.lt_or_ge n.toNat P.toNat with h | h
      · exact h
      · have := Nat.div_pos h hPn; omega
    rw [Nat.mod_eq_of_lt hlt]
    unfold periodicLoop
    by_cases hpos : n > 0
    · have hn : ¬ n ≥ P := by omega
      have hs := sliceTo_periodic n h0 (by omega)
      have hu : uint64 n = n.toNat := uint64_of_nonneg n h0 h63
      have hl : lastTick n.toNat w = (w.sleep.Write n.toNat).1 := by
        unfold lastTick; rw [if_neg (by omega)]
      simp only [hpos, hn, if_true, if_false, hc, atomicAddUint64, hs, hu,
        write_ok w.sleep hw, hl, Function.iterate_zero, id_eq]
    · have hn0 : n = 0 := by omega
      subst hn0
      have hmod : (c + (0 : Int).toNat) % 2 ^ 64 = c := by
        simpa using Nat.mod_eq_of_lt hc64
      simp only [hmod]
      simp [lastTick, ← hc]
  | succ q ih =>
    intro fuel h c w n hc hc64 hw h0 h63 hq hfuel
    obtain ⟨f, rfl⟩ : ∃ f, fuel = f + 1 := ⟨fuel - 1, by omega⟩
    have hge : P.toNat ≤ n.toNat := by
      rcases Nat.lt_or_ge n.toNat P.toNat with h | h
      · rw [Nat.div_eq_of_lt h] at hq; omega
      · exact h
    have hpos : n > 0 := by omega
    have hn : n ≥ P := by omega
    have hs := sliceTo_periodic P (by omega) hP2
    have hu : uint64 P = P.toNat := uint64_of_nonneg P (by omega) (by omega)
    have hwrap : wrapInt64 (n - P) = n - P := by
      rw [wrapInt64_of_range] <;> omega
    have htn : (n - P).toNat = n.toNat - P.toNat := by omega
    have hq' : (n - P).toNat / P.toNat = q := by
      rw [htn]
      have := Nat.sub_mul_div n.toNat P.toNat 1 (by omega)
      rw [Nat.mul_one] at this
      omega
    have hm : (n - P).toNat % P.toNat = n.toNat % P.toNat := by
      rw [htn]
      exact (Nat.mod_eq_sub_mod hge).symm
    have hmodc : (c + P.toNat) % 2 ^ 64 < 2 ^ 64 := Nat.mod_lt _ (by norm_num)
    have hrec := ih f { h with BytesServed := some ((c + P.toNat) % 2 ^ 64) }
      ((c + P.toNat) % 2 ^ 64) (tick P.toNat w) (n - P) rfl hmodc
      (flushOrLog_neverFails _ (write_neverFails w.sleep hw _)) (by omega) (by omega) hq'
      (by omega)
    have hcnt : ((c + P.toNat) % 2 ^ 64 + (n - P).toNat) % 2 ^ 64
        = (c + n.toNat) % 2 ^ 64 := by
      rw [htn]; omega
    rw [periodicLoop]
    simp only [gt_iff_lt, hpos, hn, if_true, hc, atomicAddUint64, hs, hu,
      write_ok w.sleep hw, hwrap]
    rw [Function.iterate_succ_apply, ← hm, ← hcnt]
    exact hrec

theorem tick_writeLens (len : Nat) (w : ResponseWriter) :
    writeLens (tick len w).trace = writeLens w.trace ++ [len] := by
  unfold tick
  rw [flushOrLog_writeLens, write_trace, sleep_writeLens]

theorem tick_delivered (len : Nat) (w : ResponseWriter) (hw : w.NeverFails) :
    (tick len w).delivered = w.delivered + len := by
  have h := write_delivered w.sleep hw len
  unfold tick ResponseWriter.flushOrLog
  split <;> exact h

theorem tick_iterate (len : Nat) (q : Nat) :
    ∀ w : ResponseWriter, w.NeverFails →
      ((tick len)^[q] w).NeverFails ∧
      writeLens ((tick len)^[q] w).trace = writeLens w.trace ++ List.replicate q len ∧
      ((tick len)^[q] w).delivered = w.delivered + q * len ∧
      ((tick len)^[q] w).flushable = w.flushable := by
  induction q with
  | zero => intro w hw; exact ⟨hw, by simp, by simp, rfl⟩
  | succ q ih =>
    intro w hw
    have hw1 : (tick len w).NeverFails :=
      flushOrLog_neverFails _ (write_neverFails w.sleep hw _)
    have hf : (tick len w).flushable = w.flushable := by
      unfold tick ResponseWriter.flushOrLog
      split <;> rfl
    obtain ⟨h1, h2, h3, h4⟩ := ih (tick len w) hw1
    rw [Function.iterate_succ_apply]
    refine ⟨h1, ?_, ?_, h4.trans hf⟩
    · rw [h2, tick_writeLens, List.replicate_succ]
      simp
    · rw [h3, tick_delivered len w hw, Nat.succ_mul]
      omega

/-- A GET on periodic with a size value that parses as a positive `s`, on a transport that
never fails: the handler returns, after `8 GiB / P` full bursts of `P = min s 4096` bytes and
one last partial burst when `P` does not divide 8 GiB. -/
theorem periodicHandler_reliable (fuel : Nat) (cors : Bool) (served received : Nat)
    (w : ResponseWriter) (r : Request) (s : Int) (hserved : served < 2 ^ 64)
    (hw : w.NeverFails) (hm : r.Method = "GET") (hhas : valuesHas r.query "size" = true)
    (hparse : ParseInt (valuesGet r.query "size") = some s) (hs : 0 < s) (hs63 : s < 2 ^ 63)
    (hfuel : largeContentLength.toNat / (min s 4096).toNat + 1 ≤ fuel) :
    periodicHandler fuel (countingHandlers cors served received) w r =
      .done (countingHandlers cors ((served + largeContentLength.toNat) % 2 ^ 64) received,
        lastTick (largeContentLength.toNat % (min s 4096).toNat) (afterFullBursts cors w s)) := by
  have hw0 : ((bodyHeaders cors w largeContentLength).WriteHeader 200).NeverFails :=
    bodyHeaders_neverFails cors w _ hw
  have hrun := periodicLoop_reliable (min s 4096) (by omega) (by omega)
    (largeContentLength.toNat / (min s 4096).toNat) fuel
    (countingHandlers cors served received) served
    ((bodyHeaders cors w largeContentLength).WriteHeader 200) largeContentLength rfl hserved
    hw0 (by decide) (by decide) rfl hfuel
  have hmeth : ¬ (r.Method ≠ "GET" ∧ r.Method ≠ "HEAD") := by simp [hm]
  unfold periodicHandler
  rw [if_neg hmeth]
  simp only [hhas, hparse, Bool.not_true, Bool.false_eq_true, if_false]
  simp only [countingHandlers, bodyHeaders, periodicBodyWriter, afterFullBursts,
    clampPeriodicSize_pos s hs hs63] at hrun ⊢
  rw [if_neg (by simp [hm]), hrun]
  simp only [logUnlessIgnorable, ignorableError, if_true]

theorem afterFullBursts_facts (cors : Bool) (w : ResponseWriter) (s : Int)
    (hw : w.NeverFails) :
    (afterFullBursts cors w s).NeverFails ∧
    writeLens (afterFullBursts cors w s).trace = writeLens w.trace ++
      List.replicate (largeContentLength.toNat / (min s 4096).toNat) (min s 4096).toNat ∧
    (afterFullBursts cors w s).delivered = w.delivered +
      largeContentLength.toNat / (min s 4096).toNat * (min s 4096).toNat ∧
    (afterFullBursts cors w s).flushable = w.flushable := by
  have hw0 : ((bodyHeaders cors w largeContentLength).WriteHeader 200).NeverFails :=
    bodyHeaders_neverFails cors w _ hw
  obtain ⟨h1, h2, h3, h4⟩ := tick_iterate (min s 4096).toNat
    (largeContentLength.toNat / (min s 4096).toNat) _ hw0
  obtain ⟨ht, hd, _, _, hfl, _⟩ := bodyHeaders_fields cors w largeContentLength
  refine ⟨h1, ?_, ?_, h4.trans hfl⟩
  · unfold afterFullBursts
    rw [h2]
    simp only [ResponseWriter.WriteHeader, writeLens_append, ht, writeLens, List.append_nil]
  · unfold afterFullBursts
    rw [h3]
    simp only [ResponseWriter.WriteHeader, hd]

theorem everyWriteFlushed_append_write (len accepted : Nat) (xs : List Event) :
    everyWriteFlushed (xs ++ [Event.write len accepted none]) = false := by
  induction xs with
  | nil => rfl
  | cons x xs ih =>
    cases x with
    | write l a e =>
      cases e with
      | none =>
        simp only [List.cons_append, everyWriteFlushed]
        simp only [List.append_eq, ih, Bool.and_false]
      | some e =>
        simp only [List.cons_append, everyWriteFlushed]
        simp only [List.append_eq, ih]
    | _ =>
      simp only [List.cons_append, everyWriteFlushed]
      simp only [List.append_eq, ih]

theorem lastTick_trace (W : ResponseWriter) (len : Nat) (hlen : len ≠ 0)
    (hW : W.NeverFails) :
    (lastTick len W).trace = (W.trace ++ [Event.sleep]) ++ [Event.write len len none] ∧
    (lastTick len W).flushable = W.flushable ∧
    (lastTick len W).delivered = W.delivered + len := by
  simp [lastTick, hlen, ResponseWriter.Write, ResponseWriter.sleep, hW _ _ len]

/-- Claim C5 (evaluation of the code at the failing input). A GET on periodic with `size=3`
on a flushable transport that never fails returns after 2863311530 flushed bursts of 3
bytes and a last write of the remaining 2 bytes; that write succeeds and is the last event
of the trace: no flush follows it, so not every successful write is followed by a flush. -/
theorem periodicHandler_last_write_not_flushed (cors : Bool) :
    ∃ h' w',
      (∀ fuel, 2863311531 ≤ fuel →
        periodicHandler fuel (countingHandlers cors 0 0)
          (ResponseWriter.fresh true reliablePeer) ⟨"GET", [("size", ["3"])], .noBody⟩
          = .done (h', w')) ∧
      w'.flushable = true ∧
      w'.trace.getLast? = some (Event.write 2 2 none) ∧
      everyWriteFlushed w'.trace = false := by
  have hq : largeContentLength.toNat / (min (3 : Int) 4096).toNat + 1 = 2863311531 := by
    decide
  have hr : largeContentLength.toNat % (min (3 : Int) 4096).toNat = 2 := by decide
  obtain ⟨hW, _, _, hfl⟩ := afterFullBursts_facts cors
    (ResponseWriter.fresh true reliablePeer) 3 (fun _ _ _ => rfl)
  obtain ⟨htrace, hl, _⟩ := lastTick_trace
    (afterFullBursts cors (ResponseWriter.fresh true reliablePeer) 3) 2 (by norm_num) hW
  refine ⟨countingHandlers cors ((0 + largeContentLength.toNat) % 2 ^ 64) 0,
    lastTick 2 (afterFullBursts cors (ResponseWriter.fresh true reliablePeer) 3),
    fun fuel hfuel => ?_, ?_, ?_, ?_⟩
  · have hrun := periodicHandler_reliable fuel cors 0 0
      (ResponseWriter.fresh true reliablePeer) ⟨"GET", [("size", ["3"])], .noBody⟩ 3
      (by norm_num) (fun _ _ _ => rfl) rfl (by decide) (by decide) (by norm_num)
      (by norm_num) (by rw [hq]; exact hfuel)
    rw [hr] at hrun
    exact hrun
  · rw [hl, hfl]
    rfl
  · rw [htrace, List.getLast?_append]; rfl
  · rw [htrace]; exact everyWriteFlushed_append_write 2 2 _

/-- A GET on periodic with a size value that parses as a positive `s`, on a transport that
never fails, returns within `8 GiB / min(s, 4096) + 1` iterations, having written and
delivered exactly 8 GiB and added as much to the served-bytes counter. -/
theorem periodicHandler_positive_size_total (fuel : Nat) (cors : Bool)
    (served received : Nat) (w : ResponseWriter) (r : Request) (s : Int)
    (hserved : served < 2 ^ 64) (hw : w.NeverFails) (hm : r.Method = "GET")
    (hhas : valuesHas r.query "size" = true)
    (hparse : ParseInt (valuesGet r.query "size") = some s) (hs : 0 < s) (hs63 : s < 2 ^ 63)
    (hfuel : largeContentLength.toNat / (min s 4096).toNat + 1 ≤ fuel) :
    ∃ w',
      periodicHandler fuel (countingHandlers cors served received) w r =
        .done (countingHandlers cors ((served + largeContentLength.toNat) % 2 ^ 64) received,
          w') ∧
      (writeLens w'.trace).sum = (writeLens w.trace).sum + largeContentLength.toNat ∧
      w'.delivered = w.delivered + largeContentLength.toNat := by
  obtain ⟨hW, htr, hdel, _⟩ := afterFullBursts_facts cors w s hw
  have hdm := Nat.div_add_mod largeContentLength.toNat (min s 4096).toNat
  rw [Nat.mul_comm] at hdm
  refine ⟨_, periodicHandler_reliable fuel cors served received w r s hserved hw hm hhas
    hparse hs hs63 hfuel, ?_, ?_⟩
  · by_cases hr : largeContentLength.toNat % (min s 4096).toNat = 0
    · rw [hr] at hdm ⊢
      simp only [lastTick, if_true]
      rw [htr, List.sum_append, List.sum_replicate, smul_eq_mul]
      omega
    · obtain ⟨ht, _, _⟩ := lastTick_trace (afterFullBursts cors w s) _ hr hW
      rw [ht]
      simp only [writeLens_append, writeLens, List.append_nil, htr, List.sum_append,
        List.sum_replicate, smul_eq_mul, List.sum_cons, List.sum_nil]
      omega
  · by_cases hr : largeContentLength.toNat % (min s 4096).toNat = 0
    · rw [hr] at hdm ⊢
      simp only [lastTick, if_true]
      rw [hdel]
      omega
    · obtain ⟨_, _, hd⟩ := lastTick_trace (afterFullBursts cors w s) _ hr hW
      rw [hd, hdel]
      omega

/-! ## The chunked writer on a transport that may fail -/

theorem write_calls_delivered (w : ResponseWriter) (len : Nat) :
    (w.Write len).1.calls = w.calls + 1 ∧
    (w.Write len).1.delivered = w.delivered + (w.peer w.calls w.delivered len).1 ∧
    (w.Write len).2 = (w.peer w.calls w.delivered len).2 ∧
    (w.Write len).1.peer = w.peer :=
  ⟨rfl, rfl, rfl, rfl⟩

/-- On a transport that obeys the `io.Writer` contract, the large transfer of `65536 * q`
bytes ends within `q + 1` iterations, every write issued is a whole chunk, the served-bytes
counter has grown by 65536 for each write issued, the failed one included, and that is the
number of bytes the transport accepted plus the `short` bytes of the failed chunk that it
did not accept. -/
theorem chunkLoop_counts_attempts (q : Nat) :
    ∀ (fuel : Nat) (h : handlers) (c : Nat) (w : ResponseWriter) (n : Int),
      h.BytesServed = some c → c < 2 ^ 64 → ObeysWriterContract w.peer →
      n = 65536 * q → n < 2 ^ 63 → q + 1 ≤ fuel →
      ∃ h' w' err k short,
        chunkLoop fuel h w n = .done (h', w', err) ∧
        writeLens w'.trace = writeLens w.trace ++ List.replicate k 65536 ∧
        h'.BytesServed = some ((c + 65536 * k) % 2 ^ 64) ∧
        h'.BytesReceived = h.BytesReceived ∧ h'.EnableCORS = h.EnableCORS ∧
        w'.calls = w.calls + k ∧
        w'.delivered + short = w.delivered + 65536 * k ∧ short ≤ 65536 ∧
        (err = none → k = q ∧ short = 0) ∧ (err ≠ none → 1 ≤ k) := by
  induction q with
  | zero =>
    intro fuel h c w n hc hc64 _ hn _ hfuel
    obtain ⟨f, rfl⟩ : ∃ f, fuel = f + 1 := ⟨fuel - 1, by omega⟩
    have hn0 : ¬ n > 0 := by simp at hn; omega
    refine ⟨h, w, none, 0, 0, ?_, by simp, ?_, rfl, rfl, rfl, rfl, by omega,
      fun _ => ⟨rfl, rfl⟩, fun hne => absurd rfl hne⟩
    · rw [chunkLoop, if_neg hn0]
    · rw [hc]
      exact congrArg some (Nat.mod_eq_of_lt hc64).symm
  | succ q ih =>
    intro fuel h c w n hc hc64 hcontract hn h63 hfuel
    obtain ⟨f, rfl⟩ : ∃ f, fuel = f + 1 := ⟨fuel - 1, by omega⟩
    have hn' : n - 65536 = 65536 * (q : Int) := by
      rw [hn]; push_cast; ring
    have hpos : n > 0 := by omega
    have hge : n ≥ chunkSize := by
      unfold chunkSize; omega
    have hu : uint64 chunkSize = 65536 := by
      rw [uint64_of_nonneg] <;> simp [chunkSize]
    have hwrap : wrapInt64 (n - chunkSize) = n - 65536 := by
      rw [wrapInt64_of_range] <;> unfold chunkSize <;> omega
    have hlen : chunkBuffedLen = 65536 := by decide
    obtain ⟨hcalls, hdel, hres2, _⟩ := write_calls_delivered w chunkBuffedLen
    obtain ⟨hacc, hfull⟩ := hcontract w.calls w.delivered chunkBuffedLen
    rw [hlen] at hacc hfull
    cases hres : (w.Write chunkBuffedLen).2 with
    | some e =>
      refine ⟨{ h with BytesServed := some ((c + 65536) % 2 ^ 64) }, (w.Write chunkBuffedLen).1,
        some e, 1, 65536 - (w.peer w.calls w.delivered 65536).1, ?_, ?_, rfl, rfl, rfl, hcalls,
        ?_, by omega, fun hn => by simp at hn, fun _ => le_refl 1⟩
      · rw [chunkLoop]
        simp only [hpos, hge, if_true, hc, atomicAddUint64, hu, hres]
      · rw [write_trace, hlen]; rfl
      · rw [hdel, hlen]
        omega
    | none =>
      have hfull' : (w.peer w.calls w.delivered 65536).1 = 65536 := by
        apply hfull
        rw [← hlen, ← hres2]
        exact hres
      obtain ⟨h', w', err, k, short, hrun, htr, hcnt, hrecv, hcors, hk, hd, hs, hnone,
          hsome⟩ :=
        ih f { h with BytesServed := some ((c + 65536) % 2 ^ 64) } ((c + 65536) % 2 ^ 64)
          (w.Write chunkBuffedLen).1 (n - 65536) rfl (Nat.mod_lt _ (by norm_num)) hcontract
          hn' (by omega) (by omega)
      refine ⟨h', w', err, k + 1, short, ?_, ?_, ?_, hrecv, hcors, ?_, ?_, hs,
        fun hn => ⟨by rw [(hnone hn).1], (hnone hn).2⟩, fun _ => Nat.le_add_left 1 k⟩
      · rw [chunkLoop]
        simp only [hpos, hge, if_true, hc, atomicAddUint64, hu, hres, hwrap]
        exact hrun
      · rw [htr, write_trace, List.replicate_succ, hlen]
        simp
      · rw [hcnt]
        exact congrArg some (by omega)
      · rw [hk, hcalls]; omega
      · rw [hd, hdel, hlen, hfull']
        omega

/-- With any amount of fuel and on any transport: when the loop of the large transfer
returns, the served-bytes counter has grown, modulo `2^64`, by a multiple of 65536. -/
theorem chunkLoop_done_counter (fuel : Nat) :
    ∀ (h : handlers) (c : Nat) (w : ResponseWriter) (n : Int) (h' : handlers)
      (w' : ResponseWriter) (err : Option GoError),
      h.BytesServed = some c → c < 2 ^ 64 → 0 ≤ n → n < 2 ^ 63 → n % 65536 = 0 →
      chunkLoop fuel h w n = .done (h', w', err) →
      ∃ k, h'.BytesServed = some ((c + 65536 * k) % 2 ^ 64) := by
  induction fuel with
  | zero => intro h c w n h' w' err _ _ _ _ _ hrun; simp [chunkLoop] at hrun
  | succ f ih =>
    intro h c w n h' w' err hc hc64 h0 h63 hmod hrun
    have hu : uint64 chunkSize = 65536 := by
      rw [uint64_of_nonneg] <;> simp [chunkSize]
    rw [chunkLoop] at hrun
    by_cases hpos : n > 0
    · rw [if_pos hpos] at hrun
      have hge : n ≥ chunkSize := by unfold chunkSize; omega
      have hwrap : wrapInt64 (n - chunkSize) = n - 65536 := by
        rw [wrapInt64_of_range] <;> unfold chunkSize <;> omega
      rw [if_pos hge] at hrun
      simp only [hc, atomicAddUint64, hu, hwrap] at hrun
      cases hres : (w.Write chunkBuffedLen).2 with
      | some e =>
        simp only [hres, Run.done.injEq, Prod.mk.injEq] at hrun
        refine ⟨1, ?_⟩
        rw [← hrun.1]
      | none =>
        simp only [hres] at hrun
        obtain ⟨k, hk⟩ := ih _ ((c + 65536) % 2 ^ 64) _ (n - 65536) h' w' err rfl
          (Nat.mod_lt _ (by norm_num)) (by unfold chunkSize at hge; omega) (by omega)
          (by omega) hrun
        refine ⟨k + 1, ?_⟩
        rw [hk]
        exact congrArg some (by omega)
    · rw [if_neg hpos] at hrun
      simp only [Run.done.injEq, Prod.mk.injEq] at hrun
      refine ⟨0, ?_⟩
      rw [← hrun.1, hc]
      exact congrArg some (Nat.mod_eq_of_lt hc64).symm

theorem logf_writeLens (w : ResponseWriter) (msg : String) :
    writeLens (w.logf msg).trace = writeLens w.trace := by
  simp [ResponseWriter.logf, writeLens_append, writeLens]

/-- The log step keeps the `handlers` value and, of the writer, everything but the log line
it may append. -/
theorem logUnlessIgnorable_done (msg : String)
    (x : Run (handlers × ResponseWriter × Option GoError)) (h' : handlers)
    (w' : ResponseWriter) (hx : logUnlessIgnorable msg x = .done (h', w')) :
    ∃ w'' err, x = .done (h', w'', err) ∧ w'.calls = w''.calls ∧
      w'.delivered = w''.delivered ∧ writeLens w'.trace = writeLens w''.trace := by
  cases x with
  | done a =>
    obtain ⟨h'', w'', err⟩ := a
    simp only [logUnlessIgnorable] at hx
    split at hx
    · simp only [Run.done.injEq, Prod.mk.injEq] at hx
      refine ⟨w'', err, by rw [hx.1], ?_, ?_, ?_⟩ <;> rw [← hx.2]
    · simp only [Run.done.injEq, Prod.mk.injEq] at hx
      refine ⟨w'', err, by rw [hx.1], ?_, ?_, ?_⟩
      · rw [← hx.2]; rfl
      · rw [← hx.2]; rfl
      · rw [← hx.2, logf_writeLens]
  | panic m => simp [logUnlessIgnorable] at hx
  | outOfFuel => simp [logUnlessIgnorable] at hx

theorem logUnlessIgnorable_returns (msg : String) (h : handlers) (w : ResponseWriter)
    (err : Option GoError) :
    ∃ w', logUnlessIgnorable msg (.done (h, w, err)) = .done (h, w') := by
  by_cases hign : ignorableError err = true
  · exact ⟨w, by simp only [logUnlessIgnorable, hign, if_true]⟩
  · refine ⟨w.logf (msg ++ errorText err), ?_⟩
    simp only [logUnlessIgnorable, hign]
    rfl

theorem failingPeer_contract (okCalls accepted : Nat) (err : GoError) :
    ObeysWriterContract (failingPeer okCalls accepted err) := by
  intro calls delivered len
  unfold failingPeer
  split
  · exact ⟨le_refl _, fun _ => rfl⟩
  · exact ⟨Nat.min_le_right _ _, fun h => by simp at h⟩

/-- Claim C6 (as amended). On every transport that obeys the `io.Writer` contract (in
particular when the client goes away and a write fails), a GET on large returns: its
`chunkedBodyWriter` returns `err`, nil only after all 131072 chunks, and the served-bytes
counter has then grown, modulo `2^64`, by 65536 for each of the `k` `Write` calls issued,
the failed one included. That is the number of bytes the transport accepted plus the `short`
bytes of the failed chunk that it did not accept: at least the bytes delivered, a multiple
of 65536, and never 100000. -/
theorem largeHandler_counts_attempted_chunks (cors : Bool) (served received : Nat)
    (w : ResponseWriter) (r : Request) (fuel : Nat) (hserved : served < 2 ^ 64)
    (hcontract : ObeysWriterContract w.peer) (hm : r.Method = "GET")
    (hfuel : 131073 ≤ fuel) :
    ∃ h' w' err k short,
      chunkedBodyWriter fuel (countingHandlers cors served received)
        (bodyHeaders cors w largeContentLength) largeContentLength = .done (h', w', err) ∧
      (∃ w'', largeHandler fuel (countingHandlers cors served received) w r
        = .done (h', w'')) ∧
      w'.calls = w.calls + k ∧
      writeLens w'.trace = writeLens w.trace ++ List.replicate k 65536 ∧
      h'.BytesServed = some ((served + 65536 * k) % 2 ^ 64) ∧
      h'.BytesReceived = some received ∧
      w'.delivered + short = w.delivered + 65536 * k ∧ short ≤ 65536 ∧
      (err = none → k = 131072 ∧ short = 0) ∧ (err ≠ none → 1 ≤ k) ∧
      h'.BytesServed ≠ some ((served + 100000) % 2 ^ 64) := by
  have hmeth : ¬ (r.Method ≠ "GET" ∧ r.Method ≠ "HEAD") := by simp [hm]
  have hL : largeContentLength = 65536 * ((131072 : Nat) : Int) := by decide
  obtain ⟨ht, hd0, hp, hc0, _⟩ := bodyHeaders_fields cors w largeContentLength
  have hcontract' : ObeysWriterContract
      ((bodyHeaders cors w largeContentLength).WriteHeader 200).peer := by
    intro a b c
    have hpeer : ((bodyHeaders cors w largeContentLength).WriteHeader 200).peer = w.peer := hp
    rw [hpeer]
    exact hcontract a b c
  obtain ⟨h', w', err, k, short, hrun, htr, hcnt, hrecv, _, hk, hd, hs, hnone, hsome⟩ :=
    chunkLoop_counts_attempts 131072 fuel (countingHandlers cors served received) served
      ((bodyHeaders cors w largeContentLength).WriteHeader 200) largeContentLength rfl hserved
      hcontract' hL (by decide) hfuel
  have hhandler : largeHandler fuel (countingHandlers cors served received) w r
      = logUnlessIgnorable
          ("Error writing content of length " ++ toString largeContentLength ++ ": ")
          (.done (h', w', err)) := by
    have hrun' : chunkedBodyWriter fuel (countingHandlers cors served received)
        (bodyHeaders cors w largeContentLength) largeContentLength = .done (h', w', err) :=
      hrun
    unfold largeHandler
    rw [if_neg hmeth]
    simp only [countingHandlers, bodyHeaders] at hrun' ⊢
    rw [if_neg (by simp [hm]), hrun']
  obtain ⟨w'', hw''⟩ := logUnlessIgnorable_returns
    ("Error writing content of length " ++ toString largeContentLength ++ ": ") h' w' err
  refine ⟨h', w', err, k, short, hrun, ⟨w'', hhandler.trans hw''⟩, ?_, ?_, hcnt, hrecv, ?_, hs,
    hnone, hsome, ?_⟩
  · rw [hk]
    exact congrArg (· + k) hc0
  · rw [htr]
    simp only [ResponseWriter.WriteHeader, writeLens_append, ht, writeLens, List.append_nil]
  · rw [hd]
    exact congrArg (· + 65536 * k) hd0
  · rw [hcnt]
    intro heq
    have := Option.some.inj heq
    omega

/-- Witness for C6 as amended: a connection that absorbs 60 chunks and then is reset. -/
theorem largeHandler_counts_attempted_chunks_witness :
    (0 : Nat) < 2 ^ 64 ∧
    ObeysWriterContract
      (ResponseWriter.fresh true (failingPeer 60 0 (.errno .ECONNRESET))).peer ∧
    ∃ h' w' err k short,
      chunkedBodyWriter 131073 (countingHandlers false 0 0)
        (bodyHeaders false (ResponseWriter.fresh true (failingPeer 60 0 (.errno .ECONNRESET)))
          largeContentLength) largeContentLength = .done (h', w', err) ∧
      (∃ w'', largeHandler 131073 (countingHandlers false 0 0)
        (ResponseWriter.fresh true (failingPeer 60 0 (.errno .ECONNRESET)))
        ⟨"GET", [], .noBody⟩ = .done (h', w'')) ∧
      w'.calls = (ResponseWriter.fresh true (failingPeer 60 0 (.errno .ECONNRESET))).calls + k ∧
      writeLens w'.trace = writeLens (ResponseWriter.fresh true
        (failingPeer 60 0 (.errno .ECONNRESET))).trace ++ List.replicate k 65536 ∧
      h'.BytesServed = some ((0 + 65536 * k) % 2 ^ 64) ∧
      h'.BytesReceived = some 0 ∧
      w'.delivered + short
        = (ResponseWriter.fresh true (failingPeer 60 0 (.errno .ECONNRESET))).delivered
          + 65536 * k ∧ short ≤ 65536 ∧
      (err = none → k = 131072 ∧ short = 0) ∧ (err ≠ none → 1 ≤ k) ∧
      h'.BytesServed ≠ some ((0 + 100000) % 2 ^ 64) :=
  ⟨by norm_num, failingPeer_contract 60 0 (.errno .ECONNRESET),
    largeHandler_counts_attempted_chunks false 0 0
      (ResponseWriter.fresh true (failingPeer 60 0 (.errno .ECONNRESET)))
      ⟨"GET", [], .noBody⟩ 131073 (by norm_num)
      (failingPeer_contract 60 0 (.errno .ECONNRESET)) rfl (le_refl _)⟩

/-- Claim C6 (counterexample). With the served-bytes counter at 0, no transport and no
amount of fuel make a GET on large return with the counter at 100000, however many bytes the
client read before it went away. For one, on the connection that accepts the first chunk
and 34464 bytes of the second and then fails with `EPIPE`, the transport accepted 100000
bytes, nothing is logged and the counter is 131072. -/
theorem largeHandler_counter_never_100000_counterexample :
    (¬ ∃ (peer : Nat → Nat → Nat → Nat × Option GoError) (flushable : Bool) (fuel : Nat)
        (h' : handlers) (w' : ResponseWriter),
      largeHandler fuel (countingHandlers false 0 0) (ResponseWriter.fresh flushable peer)
        ⟨"GET", [], .noBody⟩ = .done (h', w') ∧
      h'.BytesServed = some (0 + 100000)) ∧
    (∃ w',
      largeHandler 2 (countingHandlers false 0 0)
        (ResponseWriter.fresh true (failingPeer 1 34464 (.errno .EPIPE)))
        ⟨"GET", [], .noBody⟩
        = .done (countingHandlers false 131072 0, w') ∧
      w'.delivered = 100000 ∧
      w'.trace = [Event.writeHeader 200, Event.write 65536 65536 none,
        Event.write 65536 34464 (some (.errno .EPIPE))]) := by
  refine ⟨?_, ⟨_, rfl, rfl, rfl⟩⟩
  rintro ⟨peer, flushable, fuel, h', w', hrun, hcounter⟩
  unfold largeHandler at hrun
  rw [if_neg (by decide), if_neg (by decide)] at hrun
  obtain ⟨w'', err, hbody, _⟩ := logUnlessIgnorable_done _ _ _ _ hrun
  obtain ⟨k, hk⟩ := chunkLoop_done_counter fuel (countingHandlers false 0 0) 0 _
    largeContentLength h' w'' err rfl (by norm_num) (by decide) (by decide) (by decide) hbody
  rw [hk] at hcounter
  have := Option.some.inj hcounter
  omega

/-! ## Rejected requests -/

/-- Claim C7. For every `handlers` value, every fresh response writer and every request:
when the method is neither GET nor HEAD, small, large and periodic return after the single
call `WriteHeader(405)`; when the method is GET or HEAD and the `size` parameter is missing
or `strconv.ParseInt` rejects it, periodic returns after the single call `WriteHeader(400)`.
In both cases the response has that status, no `Write` was issued, no byte was delivered and
the `handlers` value, with both counters, is returned unchanged. -/
theorem rejected_requests_change_nothing (fuel : Nat) (h : handlers) (flushable : Bool)
    (peer : Nat → Nat → Nat → Nat × Option GoError) (r : Request) :
    ((r.Method ≠ "GET" ∧ r.Method ≠ "HEAD") →
      smallHandler fuel h (ResponseWriter.fresh flushable peer) r
        = .done (h, (ResponseWriter.fresh flushable peer).WriteHeader 405) ∧
      largeHandler fuel h (ResponseWriter.fresh flushable peer) r
        = .done (h, (ResponseWriter.fresh flushable peer).WriteHeader 405) ∧
      periodicHandler fuel h (ResponseWriter.fresh flushable peer) r
        = .done (h, (ResponseWriter.fresh flushable peer).WriteHeader 405)) ∧
    ((r.Method = "GET" ∨ r.Method = "HEAD") →
      (valuesHas r.query "size" = false ∨ ParseInt (valuesGet r.query "size") = none) →
      periodicHandler fuel h (ResponseWriter.fresh flushable peer) r
        = .done (h, (ResponseWriter.fresh flushable peer).WriteHeader 400)) ∧
    (∀ code : Nat,
      ((ResponseWriter.fresh flushable peer).WriteHeader code).response = (code, []) ∧
      ((ResponseWriter.fresh flushable peer).WriteHeader code).trace
        = [Event.writeHeader code] ∧
      writeLens ((ResponseWriter.fresh flushable peer).WriteHeader code).trace = [] ∧
      ((ResponseWriter.fresh flushable peer).WriteHeader code).calls = 0 ∧
      ((ResponseWriter.fresh flushable peer).WriteHeader code).delivered = 0) := by
  refine ⟨fun hm => ?_, fun hm hsize => ?_, fun code => ⟨rfl, rfl, rfl, rfl, rfl⟩⟩
  · refine ⟨?_, ?_, ?_⟩
    · unfold smallHandler; rw [if_pos hm]
    · unfold largeHandler; rw [if_pos hm]
    · unfold periodicHandler; rw [if_pos hm]
  · have hmeth : ¬ (r.Method ≠ "GET" ∧ r.Method ≠ "HEAD") := by
      rcases hm with h | h <;> simp [h]
    unfold periodicHandler
    rw [if_neg hmeth]
    by_cases hhas : valuesHas r.query "size" = true
    · have hparse : ParseInt (valuesGet r.query "size") = none := by
        rcases hsize with h | h
        · rw [hhas] at h; exact absurd h (by decide)
        · exact h
      simp only [hhas, hparse, Bool.not_true, Bool.false_eq_true, if_false]
    · simp only [Bool.not_eq_true] at hhas
      simp only [hhas, Bool.not_false, if_true]

/-- Witness for C7: `DELETE /small`, and `GET /periodic?size=abc`. -/
theorem rejected_requests_change_nothing_witness :
    (smallHandler 0 (countingHandlers true 7 9) (ResponseWriter.fresh true reliablePeer)
        ⟨"DELETE", [], .noBody⟩
      = .done (countingHandlers true 7 9,
          (ResponseWriter.fresh true reliablePeer).WriteHeader 405)) ∧
    (periodicHandler 0 (countingHandlers true 7 9) (ResponseWriter.fresh true reliablePeer)
        ⟨"GET", [("size", ["abc"])], .noBody⟩
      = .done (countingHandlers true 7 9,
          (ResponseWriter.fresh true reliablePeer).WriteHeader 400)) :=
  ⟨((rejected_requests_change_nothing 0 (countingHandlers true 7 9) true reliablePeer
      ⟨"DELETE", [], .noBody⟩).1 (by decide)).1,
    (rejected_requests_change_nothing 0 (countingHandlers true 7 9) true reliablePeer
      ⟨"GET", [("size", ["abc"])], .noBody⟩).2.1 (by decide) (by decide)⟩

/-! ## CORS headers -/

theorem write_sent (w : ResponseWriter) (len : Nat) (s : Nat × Header)
    (hs : w.sent = some s) : (w.Write len).1.sent = some s := by
  simp [ResponseWriter.Write, hs]

theorem flushOrLog_sent (w : ResponseWriter) (s : Nat × Header) (hs : w.sent = some s) :
    w.flushOrLog.sent = some s := by
  unfold ResponseWriter.flushOrLog
  split <;> simp [hs]

theorem chunkLoop_sent (fuel : Nat) :
    ∀ (h : handlers) (w : ResponseWriter) (n : Int) (h' : handlers) (w' : ResponseWriter)
      (err : Option GoError) (s : Nat × Header),
      w.sent = some s → chunkLoop fuel h w n = .done (h', w', err) → w'.sent = some s := by
  induction fuel with
  | zero => intro h w n h' w' err s _ hrun; simp [chunkLoop] at hrun
  | succ f ih =>
    intro h w n h' w' err s hs hrun
    rw [chunkLoop] at hrun
    split at hrun
    · split at hrun
      · split at hrun
        · simp at hrun
        · dsimp only at hrun
          split at hrun
          · simp only [Run.done.injEq, Prod.mk.injEq] at hrun
            rw [← hrun.2.1]; exact write_sent w _ s hs
          · exact ih _ _ _ _ _ _ s (write_sent w _ s hs) hrun
      · split at hrun
        · simp at hrun
        · split at hrun
          · simp at hrun
          · dsimp only at hrun
            split at hrun <;>
            · simp only [Run.done.injEq, Prod.mk.injEq] at hrun
              rw [← hrun.2.1]; exact write_sent w _ s hs
    · simp only [Run.done.injEq, Prod.mk.injEq] at hrun
      rw [← hrun.2.1]; exact hs

theorem periodicLoop_sent (fuel : Nat) :
    ∀ (h : handlers) (w : ResponseWriter) (P n : Int) (h' : handlers) (w' : ResponseWriter)
      (err : Option GoError) (s : Nat × Header),
      w.sent = some s → periodicLoop fuel h w P n = .done (h', w', err) →
      w'.sent = some s := by
  induction fuel with
  | zero => intro h w P n h' w' err s _ hrun; simp [periodicLoop] at hrun
  | succ f ih =>
    intro h w P n h' w' err s hs hrun
    have hsl : w.sleep.sent = some s := hs
    rw [periodicLoop] at hrun
    split at hrun
    · split at hrun
      · split at hrun
        · simp at hrun
        · split at hrun
          · simp at hrun
          · dsimp only at hrun
            split at hrun
            · simp only [Run.done.injEq, Prod.mk.injEq] at hrun
              rw [← hrun.2.1]; exact write_sent _ _ s hsl
            · exact ih _ _ _ _ _ _ _ s (flushOrLog_sent _ s (write_sent _ _ s hsl)) hrun
      · split at hrun
        · simp at hrun
        · split at hrun
          · simp at hrun
          · dsimp only at hrun
            split at hrun <;>
            · simp only [Run.done.injEq, Prod.mk.injEq] at hrun
              rw [← hrun.2.1]; exact write_sent _ _ s hsl
    · simp only [Run.done.injEq, Prod.mk.injEq] at hrun
      rw [← hrun.2.1]; exact hs

theorem logUnlessIgnorable_sent (msg : String)
    (x : Run (handlers × ResponseWriter × Option GoError)) (h' : handlers)
    (w' : ResponseWriter) (hx : logUnlessIgnorable msg x = .done (h', w')) :
    ∃ h'' w'' err, x = .done (h'', w'', err) ∧ w'.sent = w''.sent := by
  cases x with
  | done a =>
    obtain ⟨h'', w'', err⟩ := a
    refine ⟨h'', w'', err, rfl, ?_⟩
    simp only [logUnlessIgnorable] at hx
    split at hx <;>
    · simp only [Run.done.injEq, Prod.mk.injEq] at hx
      rw [← hx.2]
      try rfl
  | panic m => simp [logUnlessIgnorable] at hx
  | outOfFuel => simp [logUnlessIgnorable] at hx

/-- The header lines of the body handlers on a fresh writer set both CORS headers to `*`
when CORS is enabled and neither otherwise. -/
theorem bodyHeaders_cors (cors : Bool) (flushable : Bool)
    (peer : Nat → Nat → Nat → Nat × Option GoError) (len : Int) :
    (bodyHeaders cors (ResponseWriter.fresh flushable peer) len).sent = none ∧
    corsHeaders (bodyHeaders cors (ResponseWriter.fresh flushable peer) len).header
      = if cors = true then (some "*", some "*") else (none, none) := by
  cases cors <;>
    simp [bodyHeaders, setCors, ResponseWriter.setHeader, ResponseWriter.fresh, corsHeaders,
      headerGet, headerSet, List.lookup]

theorem served_cors (cors flushable : Bool) (peer : Nat → Nat → Nat → Nat × Option GoError)
    (len : Int) (w' : ResponseWriter)
    (hsent : w'.sent = some (200,
      (bodyHeaders cors (ResponseWriter.fresh flushable peer) len).header)) :
    corsHeaders w'.response.2 = if cors = true then (some "*", some "*") else (none, none) := by
  unfold ResponseWriter.response
  rw [hsent]
  exact (bodyHeaders_cors cors flushable peer len).2

theorem writeHeader_fresh (cors flushable : Bool)
    (peer : Nat → Nat → Nat → Nat × Option GoError) (len : Int) :
    ((bodyHeaders cors (ResponseWriter.fresh flushable peer) len).WriteHeader 200).sent
      = some (200, (bodyHeaders cors (ResponseWriter.fresh flushable peer) len).header) := by
  simp [ResponseWriter.WriteHeader, (bodyHeaders_cors cors flushable peer len).1]

theorem smallHandler_cors (fuel : Nat) (h : handlers) (flushable : Bool)
    (peer : Nat → Nat → Nat → Nat × Option GoError) (r : Request) (h' : handlers)
    (w' : ResponseWriter)
    (hrun : smallHandler fuel h (ResponseWriter.fresh flushable peer) r = .done (h', w')) :
    corsHeaders w'.response.2 =
      if h.EnableCORS = true ∧ (r.Method = "GET" ∨ r.Method = "HEAD") then
        (some "*", some "*") else (none, none) := by
  unfold smallHandler at hrun
  by_cases hm : r.Method ≠ "GET" ∧ r.Method ≠ "HEAD"
  · rw [if_pos hm] at hrun
    simp only [Run.done.injEq, Prod.mk.injEq] at hrun
    rw [← hrun.2, if_neg (by rintro ⟨_, h1 | h1⟩ <;> simp [h1] at hm)]
    rfl
  · rw [if_neg hm] at hrun
    obtain ⟨h'', w'', err, hbody, hsent⟩ := logUnlessIgnorable_sent _ _ _ _ hrun
    have hs := chunkLoop_sent fuel h _ _ h'' w'' err _
      (writeHeader_fresh h.EnableCORS flushable peer smallContentLength) hbody
    rw [served_cors h.EnableCORS flushable peer smallContentLength w' (hsent.trans hs)]
    have hacc : r.Method = "GET" ∨ r.Method = "HEAD" := by
      by_contra hcon
      exact hm ⟨fun h1 => hcon (Or.inl h1), fun h1 => hcon (Or.inr h1)⟩
    simp [hacc]

theorem largeHandler_cors (fuel : Nat) (h : handlers) (flushable : Bool)
    (peer : Nat → Nat → Nat → Nat × Option GoError) (r : Request) (h' : handlers)
    (w' : ResponseWriter)
    (hrun : largeHandler fuel h (ResponseWriter.fresh flushable peer) r = .done (h', w')) :
    corsHeaders w'.response.2 =
      if h.EnableCORS = true ∧ (r.Method = "GET" ∨ r.Method = "HEAD") then
        (some "*", some "*") else (none, none) := by
  unfold largeHandler at hrun
  by_cases hm : r.Method ≠ "GET" ∧ r.Method ≠ "HEAD"
  · rw [if_pos hm] at hrun
    simp only [Run.done.injEq, Prod.mk.injEq] at hrun
    rw [← hrun.2, if_neg (by rintro ⟨_, h1 | h1⟩ <;> simp [h1] at hm)]
    rfl
  · rw [if_neg hm] at hrun
    have hacc : r.Method = "GET" ∨ r.Method = "HEAD" := by
      by_contra hcon
      exact hm ⟨fun h1 => hcon (Or.inl h1), fun h1 => hcon (Or.inr h1)⟩
    by_cases hget : r.Method ≠ "GET"
    · rw [if_pos hget] at hrun
      simp only [Run.done.injEq, Prod.mk.injEq] at hrun
      rw [← hrun.2]
      have hb := bodyHeaders_cors h.EnableCORS flushable peer largeContentLength
      unfold ResponseWriter.response
      simp only [bodyHeaders] at hb
      rw [hb.1, hb.2]
      simp [hacc]
    · rw [if_neg hget] at hrun
      obtain ⟨h'', w'', err, hbody, hsent⟩ := logUnlessIgnorable_sent _ _ _ _ hrun
      have hs := chunkLoop_sent fuel h _ _ h'' w'' err _
        (writeHeader_fresh h.EnableCORS flushable peer largeContentLength) hbody
      rw [served_cors h.EnableCORS flushable peer largeContentLength w' (hsent.trans hs)]
      simp [hacc]

theorem periodicHandler_cors (fuel : Nat) (h : handlers) (flushable : Bool)
    (peer : Nat → Nat → Nat → Nat × Option GoError) (r : Request) (h' : handlers)
    (w' : ResponseWriter)
    (hrun : periodicHandler fuel h (ResponseWriter.fresh flushable peer) r = .done (h', w')) :
    corsHeaders w'.response.2 =
      if h.EnableCORS = true ∧ (r.Method = "GET" ∨ r.Method = "HEAD") ∧
          valuesHas r.query "size" = true ∧
          (ParseInt (valuesGet r.query "size")).isSome = true then
        (some "*", some "*") else (none, none) := by
  unfold periodicHandler at hrun
  by_cases hm : r.Method ≠ "GET" ∧ r.Method ≠ "HEAD"
  · rw [if_pos hm] at hrun
    simp only [Run.done.injEq, Prod.mk.injEq] at hrun
    rw [← hrun.2, if_neg (by rintro ⟨_, h1 | h1, _⟩ <;> simp [h1] at hm)]
    rfl
  · rw [if_neg hm] at hrun
    have hacc : r.Method = "GET" ∨ r.Method = "HEAD" := by
      by_contra hcon
      exact hm ⟨fun h1 => hcon (Or.inl h1), fun h1 => hcon (Or.inr h1)⟩
    by_cases hhas : valuesHas r.query "size" = true
    · simp only [hhas, Bool.not_true, Bool.false_eq_true, if_false] at hrun
      cases hparse : ParseInt (valuesGet r.query "size") with
      | none =>
        simp only [hparse, Run.done.injEq, Prod.mk.injEq] at hrun
        rw [← hrun.2, if_neg (by simp [hparse])]
        rfl
      | some s =>
        simp only [hparse] at hrun
        by_cases hget : r.Method ≠ "GET"
        · rw [if_pos hget] at hrun
          simp only [Run.done.injEq, Prod.mk.injEq] at hrun
          rw [← hrun.2]
          have hb := bodyHeaders_cors h.EnableCORS flushable peer largeContentLength
          unfold ResponseWriter.response
          simp only [bodyHeaders] at hb
          rw [hb.1, hb.2]
          simp [hacc, hhas, hparse]
        · rw [if_neg hget] at hrun
          obtain ⟨h'', w'', err, hbody, hsent⟩ := logUnlessIgnorable_sent _ _ _ _ hrun
          have hs := periodicLoop_sent fuel h _ _ _ h'' w'' err _
            (writeHeader_fresh h.EnableCORS flushable peer largeContentLength) hbody
          rw [served_cors h.EnableCORS flushable peer largeContentLength w' (hsent.trans hs)]
          simp [hacc, hhas, hparse]
    · simp only [Bool.not_eq_true] at hhas
      simp only [hhas, Bool.not_false, if_true, Run.done.injEq, Prod.mk.injEq] at hrun
      rw [← hrun.2, if_neg (by simp [hhas])]
      rfl

theorem slurpHandler_cors (h : handlers) (flushable : Bool)
    (peer : Nat → Nat → Nat → Nat × Option GoError) (r : Request) (h' : handlers)
    (w' : ResponseWriter)
    (hrun : slurpHandler h (ResponseWriter.fresh flushable peer) r = .done (h', w')) :
    corsHeaders w'.response.2 =
      if h.EnableCORS = true then (some "*", some "*") else (none, none) := by
  unfold slurpHandler at hrun
  dsimp only at hrun
  split at hrun
  · simp at hrun
  · simp at hrun
  · split at hrun <;>
    · simp only [Run.done.injEq, Prod.mk.injEq] at hrun
      rw [← hrun.2]
      cases h.EnableCORS <;>
        simp [httpError, setCors, setNoPublicCache, ResponseWriter.setHeader,
          ResponseWriter.WriteHeader, ResponseWriter.Write, ResponseWriter.response,
          ResponseWriter.fresh, corsHeaders, headerGet, headerSet, List.lookup]

theorem ConfigHandler_cors (encodedLen : Json → Nat) (m : Server) (flushable : Bool)
    (peer : Nat → Nat → Nat → Nat × Option GoError) (r : Request) :
    corsHeaders (m.ConfigHandler encodedLen (ResponseWriter.fresh flushable peer) r).2.response.2
      = if m.EnableCORS = true ∧ r.Method = "GET" then (some "*", some "*")
        else (none, none) := by
  unfold Server.ConfigHandler
  by_cases hm : r.Method ≠ "GET"
  · rw [if_pos hm, if_neg (fun hc => hm hc.2)]
    rfl
  · rw [if_neg hm]
    have hget : r.Method = "GET" := not_not.1 hm
    have honce : m.onceDo.EnableCORS = m.EnableCORS ∧
        m.onceDo.EnableH3AltSvc = m.EnableH3AltSvc := by
      unfold Server.onceDo Server.generateConfig
      split <;> exact ⟨rfl, rfl⟩
    dsimp only
    rw [honce.1, honce.2]
    cases m.EnableCORS <;> cases m.EnableH3AltSvc <;>
      split <;>
        simp [hget, setCors, ResponseWriter.setHeader, ResponseWriter.Write,
          ResponseWriter.logf, ResponseWriter.response, ResponseWriter.fresh, corsHeaders,
          headerGet, headerSet, List.lookup]

/-- Claim C8 (as amended). For every `handlers` value, server, fresh writer and request, every
response that small, large, periodic, slurp and discovery produce carries
`Access-Control-Allow-Origin: *` and `Access-Control-Allow-Headers: *` exactly when CORS is
enabled and the request is not rejected with 405 or 400 (slurp rejects nothing); a 405 or
400 rejection carries neither header, and with CORS disabled no response carries them. -/
theorem cors_headers_exactly_on_accepted_requests (fuel : Nat) (h : handlers) (m : Server)
    (encodedLen : Json → Nat) (flushable : Bool)
    (peer : Nat → Nat → Nat → Nat × Option GoError) (r : Request) :
    (∀ h' w', smallHandler fuel h (ResponseWriter.fresh flushable peer) r = .done (h', w') →
      corsHeaders w'.response.2 =
        if h.EnableCORS = true ∧ (r.Method = "GET" ∨ r.Method = "HEAD") then
          (some "*", some "*") else (none, none)) ∧
    (∀ h' w', largeHandler fuel h (ResponseWriter.fresh flushable peer) r = .done (h', w') →
      corsHeaders w'.response.2 =
        if h.EnableCORS = true ∧ (r.Method = "GET" ∨ r.Method = "HEAD") then
          (some "*", some "*") else (none, none)) ∧
    (∀ h' w', periodicHandler fuel h (ResponseWriter.fresh flushable peer) r = .done (h', w') →
      corsHeaders w'.response.2 =
        if h.EnableCORS = true ∧ (r.Method = "GET" ∨ r.Method = "HEAD") ∧
            valuesHas r.query "size" = true ∧
            (ParseInt (valuesGet r.query "size")).isSome = true then
          (some "*", some "*") else (none, none)) ∧
    (∀ h' w', slurpHandler h (ResponseWriter.fresh flushable peer) r = .done (h', w') →
      corsHeaders w'.response.2 =
        if h.EnableCORS = true then (some "*", some "*") else (none, none)) ∧
    corsHeaders
        (m.ConfigHandler encodedLen (ResponseWriter.fresh flushable peer) r).2.response.2
      = (if m.EnableCORS = true ∧ r.Method = "GET" then (some "*", some "*")
        else (none, none)) :=
  ⟨fun h' w' hrun => smallHandler_cors fuel h flushable peer r h' w' hrun,
    fun h' w' hrun => largeHandler_cors fuel h flushable peer r h' w' hrun,
    fun h' w' hrun => periodicHandler_cors fuel h flushable peer r h' w' hrun,
    fun h' w' hrun => slurpHandler_cors h flushable peer r h' w' hrun,
    ConfigHandler_cors encodedLen m flushable peer r⟩

/-- Witness for C8 as amended: `GET /small` and `POST /slurp` with CORS enabled both return
and carry the two headers. -/
theorem cors_headers_exactly_on_accepted_requests_witness :
    (∃ h' w',
      smallHandler 1 (countingHandlers true 0 0) (ResponseWriter.fresh true reliablePeer)
        ⟨"GET", [], .noBody⟩ = .done (h', w') ∧
      corsHeaders w'.response.2 = (some "*", some "*")) ∧
    (∃ h' w',
      slurpHandler (countingHandlers true 0 0) (ResponseWriter.fresh true reliablePeer)
        ⟨"POST", [], .reader [(5, none), (0, some .eof)]⟩ = .done (h', w') ∧
      corsHeaders w'.response.2 = (some "*", some "*")) :=
  ⟨⟨_, _, rfl,
      ((cors_headers_exactly_on_accepted_requests 1 (countingHandlers true 0 0)
        ⟨443, "", "", "", true, false, 0, 0, none, false⟩ (fun _ => 0) true reliablePeer
        ⟨"GET", [], .noBody⟩).1 _ _ rfl).trans (if_pos ⟨rfl, Or.inl rfl⟩)⟩,
    ⟨_, _, rfl,
      ((cors_headers_exactly_on_accepted_requests 1 (countingHandlers true 0 0)
        ⟨443, "", "", "", true, false, 0, 0, none, false⟩ (fun _ => 0) true reliablePeer
        ⟨"POST", [], .reader [(5, none), (0, some .eof)]⟩).2.2.2.1 _ _ rfl).trans
          (if_pos rfl)⟩⟩

/-- Claim C8 (counterexample). With CORS enabled, `DELETE /small` is answered 405 and
`GET /periodic` without a size 400, and a non-GET request for the discovery document 405,
each without the header `Access-Control-Allow-Origin` (and without
`Access-Control-Allow-Headers`). -/
theorem cors_missing_on_rejections_counterexample :
    (∃ w',
      smallHandler 1 (countingHandlers true 0 0) (ResponseWriter.fresh true reliablePeer)
        ⟨"DELETE", [], .noBody⟩ = .done (countingHandlers true 0 0, w') ∧
      w'.response.1 = 405 ∧ corsHeaders w'.response.2 = (none, none)) ∧
    (∃ w',
      periodicHandler 1 (countingHandlers true 0 0) (ResponseWriter.fresh true reliablePeer)
        ⟨"GET", [], .noBody⟩ = .done (countingHandlers true 0 0, w') ∧
      w'.response.1 = 400 ∧ corsHeaders w'.response.2 = (none, none)) ∧
    ((Server.ConfigHandler (fun _ => 0) ⟨443, "h:443", "", "https", true, false, 0, 0, none,
        false⟩ (ResponseWriter.fresh true reliablePeer) ⟨"POST", [], .noBody⟩).2.response
      = (405, [])) :=
  ⟨⟨_, rfl, rfl, rfl⟩, ⟨_, rfl, rfl, rfl⟩, rfl⟩

/-! ## The discovery document -/

/-- Claim C9. For every server the generated discovery document has version 1 and a `urls`
object with exactly the seven keys `small_download_url`, `large_download_url`, `upload_url`,
`small_https_download_url`, `large_https_download_url`, `https_upload_url` and
`https_periodic_url`, in this order; the value of each key is
`Scheme ++ "://" ++ PublicHostPort ++ ContextPath` followed by the sub-path of its endpoint
(`/small`, `/large`, `/slurp`, `/periodic`), each https-prefixed download/upload URL equals
its generic counterpart, and the first GET on the discovery handler caches that document. -/
theorem generateConfig_document (m : Server) :
    ∃ c : ConfigResp,
      m.generateConfig.generatedConfig = some c ∧
      c.toJson.members.map Prod.fst = ["version", "urls"] ∧
      c.toJson.members.lookup "version" = some (.num 1) ∧
      c.toJson.members.lookup "urls" = some c.Urls.toJson ∧
      c.Urls.toJson.members.map Prod.fst
        = ["small_download_url", "large_download_url", "upload_url",
           "small_https_download_url", "large_https_download_url", "https_upload_url",
           "https_periodic_url"] ∧
      c.Urls.toJson.members = discoverySubPaths.map (fun kp =>
        (kp.1, Json.str (m.Scheme ++ "://" ++ m.PublicHostPort ++ m.ContextPath ++ kp.2))) ∧
      c.Urls.SmallHTTPSDownloadURL = c.Urls.SmallDownloadURL ∧
      c.Urls.LargeHTTPSDownloadURL = c.Urls.LargeDownloadURL ∧
      c.Urls.HTTPSUploadURL = c.Urls.UploadURL ∧
      (∀ (encodedLen : Json → Nat) (w : ResponseWriter) (r : Request),
        r.Method = "GET" → m.once = false →
        (m.ConfigHandler encodedLen w r).1.generatedConfig = some c) := by
  refine ⟨_, rfl, rfl, rfl, rfl, rfl, rfl, rfl, rfl, rfl, ?_⟩
  intro encodedLen w r hget honce
  unfold Server.ConfigHandler
  rw [if_neg (not_not.2 hget)]
  dsimp only
  split <;> simp [Server.onceDo, honce, Server.generateConfig]

/-! ## Ignorable errors -/

theorem errorsIs_iff (target : GoError) (e : GoError) :
    errorsIs e target = true ↔ IsOrWraps target e := by
  induction e with
  | eof =>
    simp only [errorsIs, decide_eq_true_eq]
    constructor
    · intro h; rw [← h]; exact .self
    · intro h; cases h; rfl
  | errno x =>
    simp only [errorsIs, decide_eq_true_eq]
    constructor
    · intro h; rw [← h]; exact .self
    · intro h; cases h; rfl
  | text x =>
    simp only [errorsIs, decide_eq_true_eq]
    constructor
    · intro h; rw [← h]; exact .self
    · intro h; cases h; rfl
  | wrap msg inner ih =>
    simp only [errorsIs]
    by_cases heq : GoError.wrap msg inner = target
    · rw [if_pos heq]
      exact ⟨fun _ => heq ▸ .self, fun _ => rfl⟩
    · rw [if_neg heq, ih]
      constructor
      · intro h; exact .wrap msg inner h
      · intro h
        cases h with
        | self => exact absurd rfl heq
        | wrap _ _ h' => exact h'

/-- Claim C10. `ignorableError` returns true exactly when the error is nil, is or wraps
`EPIPE`, is or wraps `ECONNRESET`, or has the message `client disconnected`; for every other
error it returns false, and then the step that ends the small, large and periodic handlers
logs the write failure. -/
theorem ignorableError_iff (err : Option GoError) :
    (ignorableError err = true ↔
      (err = none ∨ ∃ e, err = some e ∧
        (IsOrWraps (.errno .EPIPE) e ∨ IsOrWraps (.errno .ECONNRESET) e ∨
          e.Error = "client disconnected"))) ∧
    (∀ (msg : String) (h : handlers) (w : ResponseWriter), ignorableError err = false →
      logUnlessIgnorable msg (.done (h, w, err))
        = .done (h, w.logf (msg ++ errorText err)) ∧
      (w.logf (msg ++ errorText err)).trace = w.trace ++ [Event.log (msg ++ errorText err)])
    := by
  constructor
  · cases err with
    | none => simp [ignorableError]
    | some e =>
      have h1 := errorsIs_iff (.errno .EPIPE) e
      have h2 := errorsIs_iff (.errno .ECONNRESET) e
      simp only [ignorableError, reduceCtorEq, Option.some.injEq, exists_eq_left',
        false_or, ← h1, ← h2]
      by_cases a : errorsIs e (.errno .EPIPE) = true
      · simp [a]
      · by_cases b : errorsIs e (.errno .ECONNRESET) = true
        · simp [b]
        · by_cases c : e.Error = "client disconnected"
          · simp [c]
          · simp [a, b, c]
  · intro msg h w hfalse
    refine ⟨?_, rfl⟩
    simp [logUnlessIgnorable, hfalse]

/-! ## Shutdown of the serving units -/

/-- Claim C11 (evaluation of the code at the failing input). When `Serve` returns
`http.ErrServerClosed`, the plaintext HTTP unit, the TLS unit (with or without HTTP/2 and
HTTP/3) and the HTTP/3 goroutine end with `wg.Done()` and no `log.Fatal`, but the H2C unit,
whose test is `err != nil`, ends with `log.Fatal` and never reaches `wg.Done()`, whatever
the scheme and the other flags. -/
theorem h2c_unit_fatal_on_server_closed (enableHTTP3 enableHTTP2 : Bool) (scheme : String)
    (configureErr : Option GoError) :
    servingUnit true enableHTTP3 enableHTTP2 scheme configureErr (some ErrServerClosed)
      = [.registered, .served, .fatal] ∧
    servingUnit false enableHTTP3 enableHTTP2 "http" configureErr (some ErrServerClosed)
      = [.registered, .served, .wgDone] ∧
    (UnitEvent.fatal ∉
        servingUnit false enableHTTP3 enableHTTP2 "https" none (some ErrServerClosed) ∧
      (servingUnit false enableHTTP3 enableHTTP2 "https" none
        (some ErrServerClosed)).getLast? = some .wgDone) ∧
    http3Unit (some ErrServerClosed) = [.served, .wgDone] := by
  refine ⟨rfl, rfl, ?_, rfl⟩
  cases enableHTTP3 <;> cases enableHTTP2 <;> exact ⟨by decide, rfl⟩

/-! ## The counting discard sink -/

theorem ReadFrom_counts (reads : List (Nat × Option GoError)) :
    ∀ (c : Nat) (n0 : Int), ∃ c' n err,
      ReadFrom (some c) reads n0 = .done (some c', n, err) ∧ c' < 2 ^ 64 ∧
      (c' + uint64 n0) % 2 ^ 64 = (c + uint64 n) % 2 ^ 64 := by
  induction reads with
  | nil =>
    intro c n0
    refine ⟨(c + uint64 0) % 2 ^ 64, wrapInt64 (n0 + 0), none, rfl,
      Nat.mod_lt _ (by norm_num), ?_⟩
    unfold uint64 wrapInt64
    omega
  | cons x xs ih =>
    intro c n0
    obtain ⟨k, e⟩ := x
    cases e with
    | some e =>
      by_cases he : e = GoError.eof
      · refine ⟨(c + uint64 (k : Int)) % 2 ^ 64, wrapInt64 (n0 + k), none, ?_,
          Nat.mod_lt _ (by norm_num), ?_⟩
        · simp [ReadFrom, atomicAddUint64, he]
        · unfold uint64 wrapInt64
          omega
      · refine ⟨(c + uint64 (k : Int)) % 2 ^ 64, wrapInt64 (n0 + k), some e, ?_,
          Nat.mod_lt _ (by norm_num), ?_⟩
        · simp [ReadFrom, atomicAddUint64, he]
        · unfold uint64 wrapInt64
          omega
    | none =>
      obtain ⟨c', n, err, hrun, hlt, hcnt⟩ :=
        ih ((c + uint64 (k : Int)) % 2 ^ 64) (wrapInt64 (n0 + k))
      refine ⟨c', n, err, ?_, hlt, ?_⟩
      · simp only [ReadFrom, atomicAddUint64]
        exact hrun
      · unfold uint64 at hcnt ⊢
        unfold wrapInt64 at hcnt
        omega

/-- Claim C12 (evaluation of the code at the failing input). `Write(p)` returns
`(len(p), nil)` and `WriteString(s)` returns `(len(s), nil)`, but both leave the byte counter
as it was: after `Write` of the five bytes of `hello` a counter that held 0 holds 0 and not
5. `ReadFrom` does count: it always returns, and the counter then holds, modulo `2^64`, its
old value plus the number of bytes `ReadFrom` reports. -/
theorem countingDiscard_write_does_not_count (c : Nat) (p : List UInt8) (s : String)
    (reads : List (Nat × Option GoError)) :
    countingDiscard.Write ⟨some c⟩ p = (⟨some c⟩, p.length, none) ∧
    countingDiscard.WriteString ⟨some c⟩ s = (⟨some c⟩, s.utf8ByteSize, none) ∧
    (countingDiscard.Write ⟨some 0⟩ [104, 101, 108, 108, 111]).1.byteCounter = some 0 ∧
    (countingDiscard.Write ⟨some 0⟩ [104, 101, 108, 108, 111]).2.1 = 5 ∧
    (countingDiscard.WriteString ⟨some 0⟩ "hello").1.byteCounter = some 0 ∧
    (countingDiscard.WriteString ⟨some 0⟩ "hello").2.1 = 5 ∧
    (∃ c' n err,
      ReadFrom (some c) reads 0 = .done (some c', n, err) ∧
      c' = (c + uint64 n) % 2 ^ 64) := by
  refine ⟨rfl, rfl, rfl, rfl, rfl, by decide, ?_⟩
  obtain ⟨c', n, err, hrun, hlt, hcnt⟩ := ReadFrom_counts reads c 0
  refine ⟨c', n, err, hrun, ?_⟩
  have h0 : uint64 0 = 0 := by decide
  rw [h0, Nat.add_zero, Nat.mod_eq_of_lt hlt] at hcnt
  exact hcnt

/-! ## Handlers without counters -/

theorem append_ne_of_ne (pfx a b : String) (hab : a.data ≠ b.data) : pfx ++ a ≠ pfx ++ b := by
  intro h
  have h' := String.ext_iff.1 h
  simp only [String.data_append] at h'
  exact hab (List.append_cancel_left h')

theorem bulk_paths_nodup (pfx : String) :
    [pfx ++ "/small", pfx ++ "/large", pfx ++ "/slurp", pfx ++ "/periodic"].Nodup := by
  have h1 := append_ne_of_ne pfx "/small" "/large" (by decide)
  have h2 := append_ne_of_ne pfx "/small" "/slurp" (by decide)
  have h3 := append_ne_of_ne pfx "/small" "/periodic" (by decide)
  have h4 := append_ne_of_ne pfx "/large" "/slurp" (by decide)
  have h5 := append_ne_of_ne pfx "/large" "/periodic" (by decide)
  have h6 := append_ne_of_ne pfx "/slurp" "/periodic" (by decide)
  simp [h1, h2, h3, h4, h5, h6]

/-- Claim C13 (evaluation of the code at the failing input). `BulkHandlers` and
`CountingBulkHandlers` return the same four distinct paths, `pfx` followed by `/small`,
`/large`, `/slurp` and `/periodic`; but the `handlers` value of `BulkHandlers` has nil counters, and
with it a GET on small, a GET on large, a POST on slurp whose body is a reader and a GET on
periodic with `size=1` all panic on the nil pointer handed to `atomic.AddUint64`, on every
response writer and before any byte is written. A slurp of `http.NoBody` returns, since
`io.Copy` never reaches `ReadFrom` for it. -/
theorem BulkHandlers_nil_counter_panics (pfx : String) (cors : Bool) (w : ResponseWriter)
    (fuel : Nat) (query : Values) (body : Body) (reads : List (Nat × Option GoError))
    (bytesServed bytesReceived : Option Nat) :
    (BulkHandlers pfx cors).2.map Prod.fst
      = [pfx ++ "/small", pfx ++ "/large", pfx ++ "/slurp", pfx ++ "/periodic"] ∧
    ((BulkHandlers pfx cors).2.map Prod.fst).Nodup ∧
    (CountingBulkHandlers pfx cors bytesServed bytesReceived).2
      = (BulkHandlers pfx cors).2 ∧
    (BulkHandlers pfx cors).1.BytesServed = none ∧
    (BulkHandlers pfx cors).1.BytesReceived = none ∧
    Endpoint.serve .small (fuel + 1) (BulkHandlers pfx cors).1 w ⟨"GET", query, body⟩
      = .panic "nil pointer dereference" ∧
    Endpoint.serve .large (fuel + 1) (BulkHandlers pfx cors).1 w ⟨"GET", query, body⟩
      = .panic "nil pointer dereference" ∧
    Endpoint.serve .slurp fuel (BulkHandlers pfx cors).1 w ⟨"POST", query, .reader reads⟩
      = .panic "nil pointer dereference" ∧
    Endpoint.serve .periodic (fuel + 1) (BulkHandlers pfx cors).1 w
        ⟨"GET", [("size", ["1"])], body⟩
      = .panic "nil pointer dereference" ∧
    (∃ w', Endpoint.serve .slurp fuel (BulkHandlers pfx cors).1 w ⟨"POST", query, .noBody⟩
      = .done ((BulkHandlers pfx cors).1, w')) := by
  have hget : ¬ ("GET" ≠ "GET" ∧ "GET" ≠ "HEAD") := by decide
  have hsmall : smallContentLength > 0 ∧ ¬ smallContentLength ≥ chunkSize := by decide
  have hlarge : largeContentLength > 0 ∧ largeContentLength ≥ chunkSize := by decide
  refine ⟨rfl, bulk_paths_nodup pfx, rfl, rfl, rfl, ?_, ?_, ?_, ?_, ?_⟩
  · simp only [Endpoint.serve, smallHandler, BulkHandlers, hget, if_false, chunkedBodyWriter,
      chunkLoop, hsmall.1, hsmall.2, if_true, atomicAddUint64, logUnlessIgnorable]
  · simp only [Endpoint.serve, largeHandler, BulkHandlers, hget, if_false, chunkedBodyWriter,
      chunkLoop, hlarge.1, hlarge.2, if_true, atomicAddUint64, logUnlessIgnorable]
    rw [if_neg (by decide)]
  · cases reads with
    | nil => simp only [Endpoint.serve, slurpHandler, BulkHandlers, ioCopy, ReadFrom,
        atomicAddUint64]
    | cons x xs =>
      obtain ⟨k, e⟩ := x
      simp only [Endpoint.serve, slurpHandler, BulkHandlers, ioCopy, ReadFrom,
        atomicAddUint64]
  · have hhas : valuesHas [("size", ["1"])] "size" = true := by decide
    have hval : valuesGet [("size", ["1"])] "size" = "1" := by decide
    have hp : ParseInt "1" = some 1 := by decide
    have hc : clampPeriodicSize 1 = 1 := by decide
    have hn : largeContentLength ≥ 1 := by decide
    simp only [Endpoint.serve, periodicHandler, BulkHandlers, hget, if_false, hhas, hval, hp,
      Bool.not_true, Bool.false_eq_true, periodicBodyWriter, hc, periodicLoop, hlarge.1, hn,
      if_true, atomicAddUint64, logUnlessIgnorable]
    rw [if_neg (by decide)]
  · simp only [Endpoint.serve, slurpHandler, BulkHandlers, ioCopy]
    exact ⟨_, rfl⟩

end Goserver
